import Mathlib

/-!
# Verification of the BuildIt crypto core against its specification

This file gives a shallow embedding, in Lean 4, of the Rust crypto package
of the BuildIt repository (`packages/crypto/src`), and proves or refutes a
fixed list of claims about it.

## Modelling conventions

* Rust `Vec<u8>` buffers and `String`s are modelled as `List SByte`, where
  `SByte` is a symbolic byte: either a concrete byte `SByte.b n`, or an
  opaque output byte of one of the external cryptographic primitives
  (SHA-256, HMAC-SHA256, HKDF-SHA256, Argon2id, BIP-340 Schnorr,
  ChaCha20-Poly1305).  The external primitives are not part of the
  repository; they are modelled as ideal (collision-free) functions: a
  32-byte digest is `List.replicate 32 (SByte.sh data)` and so on, so that
  equality of outputs is equivalent to equality of inputs (constructor
  injectivity).  This is the standard symbolic idealization: it makes the
  functional (round-trip / mismatch) behaviour of the primitives exact
  while abstracting the bit-level mixing.
* ChaCha20-Poly1305 ciphertexts are modelled as the message followed by a
  16-byte authentication tag; decryption checks the tag and recovers the
  message.  (Confidentiality is not a property we need to state.)
* The secp256k1 group is modelled through its scalars: the point `k·G` is
  represented by the scalar `k ∈ [1, nSecp)`, negation is `k ↦ nSecp - k`,
  and the x-coordinate function is `xOf k = min k (nSecp - k)`, which
  identifies exactly the pairs `{P, -P}` — the only structure x-only ECDH
  depends on.  Parsing a compressed point `02‖x` yields the canonical
  representative, `03‖x` the negated one, and both succeed exactly for
  valid x-coordinates, as on the real curve.
* Hex transport of 32-byte values (public keys, ids, signatures) is
  modelled as the identity on byte lists: encoding and decoding are
  mutually inverse bijections in the real code, and no claim depends on
  the doubled length of a hex string.
* Base64 transport is modelled by the injective wrapper `SByte.b64`, so
  that a base64 string is distinguishable from raw bytes (as in reality,
  where base64 output is ASCII) and decoding inverts encoding.
* Randomness (nonces, ephemeral keys, timestamp offsets) is passed to each
  function as an explicit argument.
-/

/-- The error enum of `error.rs` (`CryptoError`). -/
inductive CryptoError where
  | InvalidKey
  | InvalidPublicKey
  | InvalidSignature
  | EncryptionFailed
  | DecryptionFailed
  | InvalidPlaintextLength
  | InvalidCiphertext
  | InvalidPadding
  | InvalidMac
  | InvalidHex
  | InvalidJson
  | SigningFailed
  | KeyDerivationFailed
  | RandomGenerationFailed
  | InvalidDuressPassword
  | DuressPasswordTooSimilar
  | KeyDestructionFailed
  | DuressAlertFailed
  | InvalidVersion
deriving DecidableEq, Repr

/-- A symbolic byte: a concrete byte value, or one byte of the output of an
external cryptographic primitive applied to symbolic byte strings.  Every
output byte of one primitive invocation is the same `SByte`, so a 32-byte
digest is `List.replicate 32 (.sh data)`. -/
inductive SByte where
  /-- A concrete byte (`0 ≤ n < 256` in every real execution). -/
  | b (n : Nat) : SByte
  /-- One byte of `SHA-256(data)`. -/
  | sh (data : List SByte) : SByte
  /-- One byte of `HMAC-SHA256(key, data)`. -/
  | hm (key data : List SByte) : SByte
  /-- One byte of `HKDF-SHA256(salt, ikm).expand(info)`. -/
  | kd (salt ikm info : List SByte) : SByte
  /-- One byte of `Argon2id(password, salt)` at the fixed parameters. -/
  | ar (password salt : List SByte) : SByte
  /-- One byte of a BIP-340 Schnorr signature by the key with x-only
  public key `pub` over the 32-byte digest `msg`. -/
  | sg (pk msg : List SByte) : SByte
  /-- One byte of the Poly1305 tag of
  `ChaCha20-Poly1305(key, nonce, aad, msg)`. -/
  | ct (key nonce aad msg : List SByte) : SByte
  /-- One base64-transport character carrying the byte `x`. -/
  | b64 (x : SByte) : SByte

mutual

def SByte.beq : SByte → SByte → Bool
  | .b n, .b m => n == m
  | .sh d, .sh d' => SByte.beqL d d'
  | .hm k d, .hm k' d' => SByte.beqL k k' && SByte.beqL d d'
  | .kd s i inf, .kd s' i' inf' => SByte.beqL s s' && SByte.beqL i i' && SByte.beqL inf inf'
  | .ar p s, .ar p' s' => SByte.beqL p p' && SByte.beqL s s'
  | .sg p m, .sg p' m' => SByte.beqL p p' && SByte.beqL m m'
  | .ct k n a m, .ct k' n' a' m' =>
      SByte.beqL k k' && SByte.beqL n n' && SByte.beqL a a' && SByte.beqL m m'
  | .b64 x, .b64 y => SByte.beq x y
  | _, _ => false

def SByte.beqL : List SByte → List SByte → Bool
  | [], [] => true
  | x :: xs, y :: ys => SByte.beq x y && SByte.beqL xs ys
  | _, _ => false

end

mutual

theorem SByte.beq_iff : ∀ x y : SByte, SByte.beq x y = true ↔ x = y
  | .b n, .b m => by simp [SByte.beq]
  | .sh d, .sh d' => by simp [SByte.beq, SByte.beqL_iff d d']
  | .hm k d, .hm k' d' => by
      simp [SByte.beq, Bool.and_eq_true, SByte.beqL_iff k k', SByte.beqL_iff d d']
  | .kd s i inf, .kd s' i' inf' => by
      simp [SByte.beq, Bool.and_eq_true, SByte.beqL_iff s s', SByte.beqL_iff i i',
        SByte.beqL_iff inf inf', and_assoc]
  | .ar p s, .ar p' s' => by
      simp [SByte.beq, Bool.and_eq_true, SByte.beqL_iff p p', SByte.beqL_iff s s']
  | .sg p m, .sg p' m' => by
      simp [SByte.beq, Bool.and_eq_true, SByte.beqL_iff p p', SByte.beqL_iff m m']
  | .ct k n a m, .ct k' n' a' m' => by
      simp [SByte.beq, Bool.and_eq_true, SByte.beqL_iff k k', SByte.beqL_iff n n',
        SByte.beqL_iff a a', SByte.beqL_iff m m', and_assoc]
  | .b64 x, .b64 y => by simp [SByte.beq, SByte.beq_iff x y]
  | .b _, .sh _ => by simp [SByte.beq]
  | .b _, .hm _ _ => by simp [SByte.beq]
  | .b _, .kd _ _ _ => by simp [SByte.beq]
  | .b _, .ar _ _ => by simp [SByte.beq]
  | .b _, .sg _ _ => by simp [SByte.beq]
  | .b _, .ct _ _ _ _ => by simp [SByte.beq]
  | .b _, .b64 _ => by simp [SByte.beq]
  | .sh _, .b _ => by simp [SByte.beq]
  | .sh _, .hm _ _ => by simp [SByte.beq]
  | .sh _, .kd _ _ _ => by simp [SByte.beq]
  | .sh _, .ar _ _ => by simp [SByte.beq]
  | .sh _, .sg _ _ => by simp [SByte.beq]
  | .sh _, .ct _ _ _ _ => by simp [SByte.beq]
  | .sh _, .b64 _ => by simp [SByte.beq]
  | .hm _ _, .b _ => by simp [SByte.beq]
  | .hm _ _, .sh _ => by simp [SByte.beq]
  | .hm _ _, .kd _ _ _ => by simp [SByte.beq]
  | .hm _ _, .ar _ _ => by simp [SByte.beq]
  | .hm _ _, .sg _ _ => by simp [SByte.beq]
  | .hm _ _, .ct _ _ _ _ => by simp [SByte.beq]
  | .hm _ _, .b64 _ => by simp [SByte.beq]
  | .kd _ _ _, .b _ => by simp [SByte.beq]
  | .kd _ _ _, .sh _ => by simp [SByte.beq]
  | .kd _ _ _, .hm _ _ => by simp [SByte.beq]
  | .kd _ _ _, .ar _ _ => by simp [SByte.beq]
  | .kd _ _ _, .sg _ _ => by simp [SByte.beq]
  | .kd _ _ _, .ct _ _ _ _ => by simp [SByte.beq]
  | .kd _ _ _, .b64 _ => by simp [SByte.beq]
  | .ar _ _, .b _ => by simp [SByte.beq]
  | .ar _ _, .sh _ => by simp [SByte.beq]
  | .ar _ _, .hm _ _ => by simp [SByte.beq]
  | .ar _ _, .kd _ _ _ => by simp [SByte.beq]
  | .ar _ _, .sg _ _ => by simp [SByte.beq]
  | .ar _ _, .ct _ _ _ _ => by simp [SByte.beq]
  | .ar _ _, .b64 _ => by simp [SByte.beq]
  | .sg _ _, .b _ => by simp [SByte.beq]
  | .sg _ _, .sh _ => by simp [SByte.beq]
  | .sg _ _, .hm _ _ => by simp [SByte.beq]
  | .sg _ _, .kd _ _ _ => by simp [SByte.beq]
  | .sg _ _, .ar _ _ => by simp [SByte.beq]
  | .sg _ _, .ct _ _ _ _ => by simp [SByte.beq]
  | .sg _ _, .b64 _ => by simp [SByte.beq]
  | .ct _ _ _ _, .b _ => by simp [SByte.beq]
  | .ct _ _ _ _, .sh _ => by simp [SByte.beq]
  | .ct _ _ _ _, .hm _ _ => by simp [SByte.beq]
  | .ct _ _ _ _, .kd _ _ _ => by simp [SByte.beq]
  | .ct _ _ _ _, .ar _ _ => by simp [SByte.beq]
  | .ct _ _ _ _, .sg _ _ => by simp [SByte.beq]
  | .ct _ _ _ _, .b64 _ => by simp [SByte.beq]
  | .b64 _, .b _ => by simp [SByte.beq]
  | .b64 _, .sh _ => by simp [SByte.beq]
  | .b64 _, .hm _ _ => by simp [SByte.beq]
  | .b64 _, .kd _ _ _ => by simp [SByte.beq]
  | .b64 _, .ar _ _ => by simp [SByte.beq]
  | .b64 _, .sg _ _ => by simp [SByte.beq]
  | .b64 _, .ct _ _ _ _ => by simp [SByte.beq]

theorem SByte.beqL_iff : ∀ xs ys : List SByte, SByte.beqL xs ys = true ↔ xs = ys
  | [], [] => by simp [SByte.beqL]
  | x :: xs, y :: ys => by
      simp [SByte.beqL, Bool.and_eq_true, SByte.beq_iff x y, SByte.beqL_iff xs ys]
  | [], _ :: _ => by simp [SByte.beqL]
  | _ :: _, [] => by simp [SByte.beqL]

end

instance : DecidableEq SByte := fun a b => decidable_of_iff _ (SByte.beq_iff a b)

/-! ## Byte-list helpers -/

/-- Wrap a list of concrete byte values as symbolic bytes. -/
def bbytes (l : List Nat) : List SByte := l.map SByte.b

/-- The ASCII bytes of a string literal (used for fixed protocol labels). -/
def strB (s : String) : List Nat := s.toList.map Char.toNat

/-- Tail-recursive list length (kernel-reduction friendly: evaluation of
`List.length` recurses once per element, which matters on kilobyte-sized
byte strings). -/
def lenGo {α : Type} (acc : Nat) : List α → Nat
  | [] => acc
  | _ :: t => lenGo (acc + 1) t

/-- `Vec::len` on byte buffers. -/
def listLen {α : Type} (l : List α) : Nat := lenGo 0 l

theorem lenGo_eq {α : Type} (l : List α) (acc : Nat) : lenGo acc l = acc + l.length := by
  induction l generalizing acc with
  | nil => simp [lenGo]
  | cons x xs ih =>
      rw [lenGo, ih]
      simp
      omega

@[simp]
theorem listLen_eq {α : Type} (l : List α) : listLen l = l.length := by
  rw [listLen, lenGo_eq]
  omega

/-- Big-endian byte representation of `n` in exactly `k` bytes
(the low `8k` bits of `n`). -/
def natToBeBytes : Nat → Nat → List Nat
  | 0, _ => []
  | k + 1, n => natToBeBytes k (n / 256) ++ [n % 256]

/-- Read a big-endian byte list back into a natural number. -/
def beBytesToNat (l : List Nat) : Nat := l.foldl (fun acc d => acc * 256 + d) 0

/-- Read a list of symbolic bytes as a big-endian number, failing if any
byte is not concrete. -/
def sbytesToNat (l : List SByte) : Option Nat :=
  l.foldl (fun acc d =>
    match acc, d with
    | some a, .b n => some (a * 256 + n)
    | _, _ => none) (some 0)

theorem natToBeBytes_length (k n : Nat) : (natToBeBytes k n).length = k := by
  induction k generalizing n with
  | zero => rfl
  | succ k ih => simp [natToBeBytes, ih]

theorem beBytesToNat_natToBeBytes (k n : Nat) (h : n < 256 ^ k) :
    beBytesToNat (natToBeBytes k n) = n := by
  induction k generalizing n with
  | zero =>
      have : n = 0 := Nat.lt_one_iff.mp h
      simp [natToBeBytes, beBytesToNat, this]
  | succ k ih =>
      have hdiv : n / 256 < 256 ^ k := by
        rw [Nat.div_lt_iff_lt_mul (by norm_num)]
        calc n < 256 ^ (k + 1) := h
        _ = 256 ^ k * 256 := by ring
      have hk : beBytesToNat (natToBeBytes k (n / 256)) = n / 256 := ih _ hdiv
      simp only [natToBeBytes, beBytesToNat] at *
      rw [List.foldl_append, hk]
      simp only [List.foldl_cons, List.foldl_nil]
      omega

theorem sbytesToNat_bbytes_aux (l : List Nat) (a : Nat) :
    (l.map SByte.b).foldl (fun acc d =>
      match acc, d with
      | some a, .b n => some (a * 256 + n)
      | _, _ => none) (some a) = some (l.foldl (fun acc d => acc * 256 + d) a) := by
  induction l generalizing a with
  | nil => rfl
  | cons x xs ih => simp [ih]

theorem sbytesToNat_bbytes (l : List Nat) :
    sbytesToNat (bbytes l) = some (beBytesToNat l) := by
  simpa [sbytesToNat, bbytes, beBytesToNat] using sbytesToNat_bbytes_aux l 0

/-! ## Models of the external cryptographic primitives

These are ideal functional models of the external crates (`sha2`, `hmac`,
`hkdf`, `argon2`, `secp256k1`, `chacha20poly1305`, `base64`); they are not
code of the repository. -/

/-- `SHA-256(data)`: a 32-byte digest carrying the symbolic tag in its
first byte (the remaining bytes are zero so that nested terms stay
linear in size). -/
def shaBytes (data : List SByte) : List SByte :=
  SByte.sh data :: List.replicate 31 (SByte.b 0)

/-- `HMAC-SHA256(key, data)`: a 32-byte tag-carrying output. -/
def hmacBytes (key data : List SByte) : List SByte :=
  SByte.hm key data :: List.replicate 31 (SByte.b 0)

/-- `HKDF-SHA256(salt, ikm).expand(info, L)`: `L` output bytes, the
first carrying the symbolic tag. -/
def hkdfBytes (salt ikm info : List SByte) (len : Nat) : List SByte :=
  match len with
  | 0 => []
  | n + 1 => SByte.kd salt ikm info :: List.replicate n (SByte.b 0)

/-- `Argon2id(password, salt)` at the crate's fixed parameters. -/
def argonBytes (password salt : List SByte) : List SByte :=
  SByte.ar password salt :: List.replicate 31 (SByte.b 0)

/-- A BIP-340 Schnorr signature over the digest `msg` by the key whose
x-only public key is `pk`: 64 bytes, the first carrying the symbolic
tag.  Verification checks a signature against this canonical value. -/
def sigBytes (pk msg : List SByte) : List SByte :=
  SByte.sg pk msg :: List.replicate 63 (SByte.b 0)

/-- `ChaCha20-Poly1305` sealing: the ciphertext is the message followed by
a 16-byte authentication tag binding key, nonce, aad and message. -/
def chachaEncrypt (key nonce aad msg : List SByte) : List SByte :=
  msg ++ (SByte.ct key nonce aad msg :: List.replicate 15 (SByte.b 0))

/-- `ChaCha20-Poly1305` opening: checks the tag, returns the message. -/
def chachaDecrypt (key nonce aad ciphertext : List SByte) : Option (List SByte) :=
  if listLen ciphertext < 16 then none
  else
    let msg := ciphertext.take (listLen ciphertext - 16)
    let tag := ciphertext.drop (listLen ciphertext - 16)
    if tag = SByte.ct key nonce aad msg :: List.replicate 15 (SByte.b 0) then some msg
    else none

theorem chachaDecrypt_chachaEncrypt (key nonce aad msg : List SByte) :
    chachaDecrypt key nonce aad (chachaEncrypt key nonce aad msg) = some msg := by
  have hlen : (chachaEncrypt key nonce aad msg).length = msg.length + 16 := by
    simp [chachaEncrypt]
  have hsub : msg.length + 16 - 16 = msg.length := by omega
  simp [chachaDecrypt, chachaEncrypt, hlen, hsub, listLen_eq, List.take_append,
    List.drop_append]

/-- Base64 encoding: an injective per-byte transport wrapper. -/
def b64encode (l : List SByte) : List SByte := l.map SByte.b64

/-- Tail-recursive worker for `b64decode`. -/
def b64decodeGo : List SByte → List SByte → Except CryptoError (List SByte)
  | acc, [] => .ok acc.reverse
  | acc, .b64 y :: rest => b64decodeGo (y :: acc) rest
  | _, _ :: _ => .error .InvalidCiphertext

/-- Base64 decoding: inverts `b64encode`; any non-transport character is
`InvalidCiphertext` (the NIP-44 decode error mapping). -/
def b64decode (l : List SByte) : Except CryptoError (List SByte) := b64decodeGo [] l

theorem b64decodeGo_b64encode (l acc : List SByte) :
    b64decodeGo acc (b64encode l) = .ok (acc.reverse ++ l) := by
  induction l generalizing acc with
  | nil => simp [b64encode, b64decodeGo]
  | cons x xs ih =>
      simp only [b64encode, List.map_cons, b64decodeGo] at *
      rw [ih]
      simp

theorem b64decode_b64encode (l : List SByte) : b64decode (b64encode l) = .ok l := by
  rw [b64decode, b64decodeGo_b64encode]
  simp

/-! ## The secp256k1 scalar/point model -/

/-- The order of the secp256k1 group. -/
def nSecp : Nat :=
  0xFFFFFFFFFFFFFFFFFFFFFFFFFFFFFFFEBAAEDCE6AF48A03BBFD25E8CD0364141

/-- The x-coordinate of the point `k·G`, in the relabelled model: the
canonical representative of the pair `{k, nSecp - k}`. -/
def xOf (k : Nat) : Nat := min k (nSecp - k)

/-- The x-only 32-byte public key of the private scalar `priv`
(`generate_keypair` / `get_public_key` output, hex transport modelled as
the identity). -/
def pubXBytes (priv : Nat) : List SByte := bbytes (natToBeBytes 32 (xOf priv))

/-- Parse a compressed point `02‖x` (even parity): succeeds exactly on
valid x-coordinates and yields the canonical representative. -/
def parsePoint02 (x : Nat) : Option Nat :=
  if 0 < x ∧ 2 * x < nSecp then some x else none

/-- Parse a compressed point `03‖x` (odd parity): succeeds on the same
x-coordinates and yields the negated representative. -/
def parsePoint03 (x : Nat) : Option Nat :=
  if 0 < x ∧ 2 * x < nSecp then some (nSecp - x) else none

/-- `SecretKey::from_slice` on a 32-byte scalar value: rejects zero and
values at or above the group order. -/
def scalarValid (k : Nat) : Bool := 0 < k && k < nSecp

/-- The x-coordinate of the ECDH shared point `priv·P`, where the point
`P` is given by its representative scalar. -/
def ecdhX (priv pointRep : Nat) : Nat := xOf (priv * pointRep % nSecp)

/-! ## `keys.rs`: `derive_conversation_key` -/

/-- `derive_conversation_key(private_key, recipient_pubkey)` from
`keys.rs` lines 132-183: parse the x-only recipient key trying prefix
`0x02` then `0x03`, perform ECDH, take the x-coordinate, and run
`HKDF(salt = "nip44-v2", ikm = x, info = "", L = 32)`. -/
def derive_conversation_key (privateKey : Nat) (recipientPubkey : List SByte) :
    Except CryptoError (List SByte) :=
  if ¬ scalarValid privateKey then .error .InvalidKey
  else if recipientPubkey.length ≠ 32 then .error .InvalidPublicKey
  else
    match sbytesToNat recipientPubkey with
    | none => .error .InvalidPublicKey
    | some x =>
      let point? :=
        match parsePoint02 x with
        | some p => some p
        | none => parsePoint03 x
      match point? with
      | none => .error .InvalidPublicKey
      | some p =>
          let sharedX := ecdhX privateKey p
          .ok (hkdfBytes (bbytes (strB "nip44-v2")) (bbytes (natToBeBytes 32 sharedX)) [] 32)

/-! ## ECDH symmetry (claim C4) -/

theorem nSecp_odd : nSecp % 2 = 1 := by decide

theorem nSecp_big : 2 < nSecp := by decide

theorem nSecp_lt_pow : nSecp < 256 ^ 32 := by decide

theorem xOf_pos {b : Nat} (h0 : 0 < b) (h1 : b < nSecp) : 0 < xOf b := by
  have := nSecp_big
  unfold xOf
  omega

theorem xOf_lt_half {b : Nat} (h0 : 0 < b) (h1 : b < nSecp) : 2 * xOf b < nSecp := by
  have hodd := nSecp_odd
  unfold xOf
  omega

theorem xOf_neg_mod (r : Nat) (hr : r < nSecp) : xOf ((nSecp - r) % nSecp) = xOf r := by
  have := nSecp_big
  rcases Nat.eq_zero_or_pos r with h0 | h0
  · subst h0
    simp [xOf, Nat.sub_zero, Nat.mod_self]
  · have hlt : nSecp - r < nSecp := by omega
    rw [Nat.mod_eq_of_lt hlt]
    unfold xOf
    omega

theorem mul_neg_mod (a b : Nat) (hb : b < nSecp) :
    a * (nSecp - b) % nSecp = (nSecp - a * b % nSecp) % nSecp := by
  haveI : NeZero nSecp := ⟨by decide⟩
  have h1 : (a * b % nSecp : Nat) ≤ nSecp := (Nat.mod_lt _ (by decide)).le
  have hcast : ((a * (nSecp - b) % nSecp : Nat) : ZMod nSecp) =
      (((nSecp - a * b % nSecp) % nSecp : Nat) : ZMod nSecp) := by
    rw [ZMod.natCast_mod, ZMod.natCast_mod, Nat.cast_mul, Nat.cast_sub hb.le,
      Nat.cast_sub h1, ZMod.natCast_mod, ZMod.natCast_self, Nat.cast_mul]
    ring
  have hl : a * (nSecp - b) % nSecp < nSecp := Nat.mod_lt _ (by decide)
  have hr : (nSecp - a * b % nSecp) % nSecp < nSecp := Nat.mod_lt _ (by decide)
  have hv := congrArg ZMod.val hcast
  rwa [ZMod.val_cast_of_lt hl, ZMod.val_cast_of_lt hr] at hv

theorem ecdh_xOf (a b : Nat) (hb0 : 0 < b) (hb1 : b < nSecp) :
    ecdhX a (xOf b) = xOf (a * b % nSecp) := by
  unfold ecdhX
  rcases Nat.le_total b (nSecp - b) with hle | hlt
  · have : xOf b = b := by unfold xOf; omega
    rw [this]
  · have hx : xOf b = nSecp - b := by unfold xOf; omega
    rw [hx, mul_neg_mod a b hb1, xOf_neg_mod _ (Nat.mod_lt _ (by decide))]

theorem pubXBytes_length (k : Nat) : (pubXBytes k).length = 32 := by
  simp [pubXBytes, bbytes, natToBeBytes_length]

/-- Evaluation of `derive_conversation_key` on a keypair-produced x-only
public key: it succeeds and returns the HKDF of the shared x-coordinate
`xOf (a·b)`. -/
theorem derive_conversation_key_eval (a b : Nat)
    (ha0 : 0 < a) (ha1 : a < nSecp) (hb0 : 0 < b) (hb1 : b < nSecp) :
    derive_conversation_key a (pubXBytes b) =
      .ok (hkdfBytes (bbytes (strB "nip44-v2"))
        (bbytes (natToBeBytes 32 (xOf (a * b % nSecp)))) [] 32) := by
  have hval : scalarValid a = true := by
    simp [scalarValid]
    omega
  have hx : sbytesToNat (pubXBytes b) = some (xOf b) := by
    rw [pubXBytes, sbytesToNat_bbytes, beBytesToNat_natToBeBytes]
    have h1 : xOf b ≤ b := Nat.min_le_left _ _
    have := nSecp_lt_pow
    omega
  have hparse : parsePoint02 (xOf b) = some (xOf b) := by
    simp [parsePoint02, xOf_pos hb0 hb1, xOf_lt_half hb0 hb1]
  simp only [derive_conversation_key, hval, not_true_eq_false, if_false,
    pubXBytes_length, ne_eq, not_true, hx, hparse, ecdh_xOf a b hb0 hb1,
    ite_false, not_false_eq_true]

/-- **C4.** For every pair of valid keypairs `A = (a, pubXBytes a)` and
`B = (b, pubXBytes b)`, `derive_conversation_key(A.priv, B.pub)` equals
`derive_conversation_key(B.priv, A.pub)` — ECDH symmetry across the
x-only (parity-free) public-key encoding, where parsing lifts the x-only
key through the `0x02`-then-`0x03` compressed-point fallback
(`keys.rs` lines 132-183). -/
theorem conversation_key_symmetric (a b : Nat)
    (ha0 : 0 < a) (ha1 : a < nSecp) (hb0 : 0 < b) (hb1 : b < nSecp) :
    derive_conversation_key a (pubXBytes b) =
      derive_conversation_key b (pubXBytes a) := by
  rw [derive_conversation_key_eval a b ha0 ha1 hb0 hb1,
    derive_conversation_key_eval b a hb0 hb1 ha0 ha1,
    Nat.mul_comm b a]

/-- Witness for C4 at the concrete keypair scalars `a = 1`, `b = 2`. -/
theorem conversation_key_symmetric_witness :
    (0 < 1 ∧ 1 < nSecp ∧ 0 < 2 ∧ 2 < nSecp) ∧
      derive_conversation_key 1 (pubXBytes 2) =
        derive_conversation_key 2 (pubXBytes 1) :=
  ⟨⟨by decide, by decide, by decide, by decide⟩,
    conversation_key_symmetric 1 2 (by decide) (by decide) (by decide) (by decide)⟩

/-! ## `nip44.rs`: padding -/

/-- Fuel-indexed helper for `u32::next_power_of_two`: doubling search for
the least power of two that is at least `n`. -/
def nptAux : Nat → Nat → Nat → Nat
  | 0, acc, _ => acc
  | f + 1, acc, n => if n ≤ acc then acc else nptAux f (2 * acc) n

/-- `u32::next_power_of_two(n)` (no overflow for the NIP-44 range
`n ≤ 65535`). -/
def nextPowerOfTwo (n : Nat) : Nat := nptAux 32 1 n

theorem nptAux_ge (f acc n : Nat) (h : n ≤ 2 ^ f * acc) : n ≤ nptAux f acc n := by
  induction f generalizing acc with
  | zero => simpa [nptAux] using h
  | succ f ih =>
      simp only [nptAux]
      split
      · assumption
      · refine ih (2 * acc) ?_
        rw [pow_succ] at h
        calc n ≤ 2 ^ f * 2 * acc := h
        _ = 2 ^ f * (2 * acc) := by ring

theorem nextPowerOfTwo_ge (n : Nat) (h : n ≤ 2 ^ 32) : n ≤ nextPowerOfTwo n :=
  nptAux_ge 32 1 n (by omega)

/-- `calc_padded_len` from `nip44.rs` lines 25-33. -/
def calcPaddedLen (unpaddedLen : Nat) : Nat :=
  if unpaddedLen ≤ 32 then 32
  else
    let nextPower := nextPowerOfTwo unpaddedLen
    let chunk := if nextPower ≤ 256 then 32 else nextPower / 8
    chunk * ((unpaddedLen + chunk - 1) / chunk)

theorem ceil_chunk_ge (c n : Nat) (hc : 0 < c) : n ≤ c * ((n + c - 1) / c) := by
  have h1 := Nat.div_add_mod (n + c - 1) c
  have h2 : (n + c - 1) % c < c := Nat.mod_lt _ hc
  omega

theorem calcPaddedLen_ge (n : Nat) (h : n ≤ 65535) : n ≤ calcPaddedLen n := by
  unfold calcPaddedLen
  split
  · omega
  · rename_i hn
    have hnp : n ≤ nextPowerOfTwo n := nextPowerOfTwo_ge n (by norm_num; omega)
    set np := nextPowerOfTwo n with hnpdef
    by_cases hc : np ≤ 256
    · simp only [hc, if_true]
      exact ceil_chunk_ge 32 n (by norm_num)
    · simp only [hc, if_false]
      exact ceil_chunk_ge (np / 8) n (by omega)

theorem calcPaddedLen_ge32 (n : Nat) (h : n ≤ 65535) : 32 ≤ calcPaddedLen n := by
  rcases Nat.le_total n 32 with h32 | h32
  · unfold calcPaddedLen
    simp [h32]
  · exact le_trans h32 (calcPaddedLen_ge n h)

/-- `pad` from `nip44.rs` lines 36-56: a two-byte big-endian length,
the plaintext, and zero padding to the padded length. -/
def pad (plaintext : List SByte) : Except CryptoError (List SByte) :=
  let unpaddedLen := listLen plaintext
  if unpaddedLen < 1 ∨ 65535 < unpaddedLen then .error .InvalidPlaintextLength
  else
    let paddedLen := calcPaddedLen unpaddedLen
    .ok ([SByte.b (unpaddedLen / 256 % 256), SByte.b (unpaddedLen % 256)]
      ++ plaintext ++ List.replicate (paddedLen - unpaddedLen) (SByte.b 0))

/-- `unpad` from `nip44.rs` lines 59-82: read the 16-bit length, check its
range, check the tail is within bounds and all-zero, return the plaintext
slice. -/
def unpad (padded : List SByte) : Except CryptoError (List SByte) :=
  match padded with
  | SByte.b h :: SByte.b l :: rest =>
      let unpaddedLen := h * 256 + l
      if unpaddedLen < 1 ∨ 65535 < unpaddedLen then .error .InvalidPadding
      else if listLen padded < 2 + unpaddedLen then .error .InvalidPadding
      else if (rest.drop unpaddedLen).all (fun x => x = SByte.b 0) then
        .ok (rest.take unpaddedLen)
      else .error .InvalidPadding
  | _ => .error .InvalidPadding

/-- The explicit result of a successful `pad`. -/
def padList (pt : List SByte) : List SByte :=
  [SByte.b (pt.length / 256 % 256), SByte.b (pt.length % 256)]
    ++ pt ++ List.replicate (calcPaddedLen pt.length - pt.length) (SByte.b 0)

theorem pad_eval (pt : List SByte) (h1 : 1 ≤ pt.length) (h2 : pt.length ≤ 65535) :
    pad pt = .ok (padList pt) := by
  simp only [pad, padList, listLen_eq]
  rw [if_neg (by omega)]

theorem padList_length (pt : List SByte) (h1 : 1 ≤ pt.length) (h2 : pt.length ≤ 65535) :
    (padList pt).length = 2 + calcPaddedLen pt.length := by
  have hP := calcPaddedLen_ge pt.length h2
  simp [padList]
  omega

theorem unpad_padList (pt : List SByte) (h1 : 1 ≤ pt.length) (h2 : pt.length ≤ 65535) :
    unpad (padList pt) = .ok pt := by
  have hP := calcPaddedLen_ge pt.length h2
  have hlen : pt.length / 256 % 256 * 256 + pt.length % 256 = pt.length := by omega
  simp only [padList, unpad, listLen_eq, List.cons_append, List.nil_append, hlen]
  rw [if_neg (by omega)]
  have hlentot :
      (SByte.b (pt.length / 256 % 256) :: SByte.b (pt.length % 256)
        :: (pt ++ List.replicate (calcPaddedLen pt.length - pt.length) (SByte.b 0))).length
      = 2 + (pt.length + (calcPaddedLen pt.length - pt.length)) := by
    simp
    omega
  rw [if_neg (by rw [hlentot]; omega)]
  rw [List.drop_append_of_le_length (le_refl _), List.drop_length, List.nil_append,
    List.take_append_of_le_length (le_refl _), List.take_length]
  simp

/-! ## A byte-level UTF-8 validity checker (`String::from_utf8`)

Symbolic bytes stand for transport characters (hex, base64), which are
ASCII in every real execution, so they are accepted as single-byte
characters. -/

/-- Is `n` a UTF-8 continuation byte (`0x80..0xBF`)? -/
def isCont (x : SByte) : Bool :=
  match x with
  | .b n => 0x80 ≤ n && n ≤ 0xBF
  | _ => false

def validUtf8 : List SByte → Bool
  | [] => true
  | .b n :: rest =>
      if n < 0x80 then validUtf8 rest
      else if 0xC2 ≤ n && n ≤ 0xDF then
        match rest with
        | c1 :: rest2 => isCont c1 && validUtf8 rest2
        | [] => false
      else if 0xE0 ≤ n && n ≤ 0xEF then
        match rest with
        | c1 :: c2 :: rest2 =>
            (match c1 with
             | .b m =>
                 if n = 0xE0 then 0xA0 ≤ m && m ≤ 0xBF
                 else if n = 0xED then 0x80 ≤ m && m ≤ 0x9F
                 else 0x80 ≤ m && m ≤ 0xBF
             | _ => false)
            && isCont c2 && validUtf8 rest2
        | _ => false
      else if 0xF0 ≤ n && n ≤ 0xF4 then
        match rest with
        | c1 :: c2 :: c3 :: rest2 =>
            (match c1 with
             | .b m =>
                 if n = 0xF0 then 0x90 ≤ m && m ≤ 0xBF
                 else if n = 0xF4 then 0x80 ≤ m && m ≤ 0x8F
                 else 0x80 ≤ m && m ≤ 0xBF
             | _ => false)
            && isCont c2 && isCont c3 && validUtf8 rest2
        | _ => false
      else false
  | _ :: rest => validUtf8 rest

/-! ## `nip44.rs`: encryption and decryption -/

/-- The NIP-44 payload construction of `nip44_encrypt` (`nip44.rs` lines
85-137), before base64 encoding: derive the conversation key, expand the
message keys with HKDF, pad, seal with ChaCha20-Poly1305, authenticate
`nonce ‖ ciphertext` with HMAC, and assemble
`version ‖ nonce ‖ ciphertext ‖ mac`.  The 32 random bytes
`nonce_material` are an explicit argument. -/
def nip44_payload (privateKey : Nat) (recipientPubkey plaintext nonceMaterial : List SByte) :
    Except CryptoError (List SByte) := do
  let conversationKey ← derive_conversation_key privateKey recipientPubkey
  let keyMaterial := hkdfBytes nonceMaterial conversationKey (bbytes (strB "nip44-v2")) 76
  let chachaKey := keyMaterial.take 32
  let chachaNonce := (keyMaterial.drop 32).take 12
  let hmacKey := (keyMaterial.drop 44).take 32
  let padded ← pad plaintext
  let ciphertext := chachaEncrypt chachaKey chachaNonce [] padded
  let macBytes := hmacBytes hmacKey (nonceMaterial ++ ciphertext)
  .ok (SByte.b 2 :: (nonceMaterial ++ ciphertext ++ macBytes))

/-- `nip44_encrypt`: the payload, base64-encoded. -/
def nip44_encrypt (privateKey : Nat) (recipientPubkey plaintext nonceMaterial : List SByte) :
    Except CryptoError (List SByte) :=
  (nip44_payload privateKey recipientPubkey plaintext nonceMaterial).map b64encode

/-- `nip44_decrypt` from `nip44.rs` lines 266-328: base64-decode, check
the minimum length and version byte, split `nonce ‖ ciphertext ‖ mac`,
derive the conversation key and message keys, verify the HMAC *before*
decrypting, open the AEAD, unpad, and check UTF-8 validity. -/
def nip44_decrypt (privateKey : Nat) (senderPubkey ciphertextB64 : List SByte) :
    Except CryptoError (List SByte) := do
  let payload ← b64decode ciphertextB64
  if listLen payload < 99 then .error .InvalidCiphertext
  else
    match payload with
    | [] => .error .InvalidCiphertext
    | v :: rest =>
      if v ≠ SByte.b 2 then .error .InvalidCiphertext
      else
        let nonceMaterial := rest.take 32
        let encrypted := (rest.drop 32).take (listLen payload - 65)
        let receivedMac := payload.drop (listLen payload - 32)
        let conversationKey ← derive_conversation_key privateKey senderPubkey
        let keyMaterial := hkdfBytes nonceMaterial conversationKey (bbytes (strB "nip44-v2")) 76
        let chachaKey := keyMaterial.take 32
        let chachaNonce := (keyMaterial.drop 32).take 12
        let hmacKey := (keyMaterial.drop 44).take 32
        if hmacBytes hmacKey (nonceMaterial ++ encrypted) ≠ receivedMac then
          .error .InvalidMac
        else
          match chachaDecrypt chachaKey chachaNonce [] encrypted with
          | none => .error .DecryptionFailed
          | some padded => do
              let plaintextBytes ← unpad padded
              if validUtf8 plaintextBytes then .ok plaintextBytes
              else .error .DecryptionFailed

/-! ## NIP-44 round trip (claim C3) -/

@[simp]
theorem exceptBind_ok {α β ε : Type} (a : α) (f : α → Except ε β) :
    (Except.ok a : Except ε α) >>= f = f a := rfl

@[simp]
theorem exceptBind_error {α β ε : Type} (e : ε) (f : α → Except ε β) :
    (Except.error e : Except ε α) >>= f = Except.error e := rfl

theorem nip44_payload_eval
    (a b : Nat) (ha0 : 0 < a) (ha1 : a < nSecp) (hb0 : 0 < b) (hb1 : b < nSecp)
    (pt nonce : List SByte) (h1 : 1 ≤ pt.length) (h2 : pt.length ≤ 65535) :
    nip44_payload a (pubXBytes b) pt nonce =
      .ok (SByte.b 2 :: (nonce ++
        (chachaEncrypt
          ((hkdfBytes nonce
            (hkdfBytes (bbytes (strB "nip44-v2"))
              (bbytes (natToBeBytes 32 (xOf (a * b % nSecp)))) [] 32)
            (bbytes (strB "nip44-v2")) 76).take 32)
          (((hkdfBytes nonce
            (hkdfBytes (bbytes (strB "nip44-v2"))
              (bbytes (natToBeBytes 32 (xOf (a * b % nSecp)))) [] 32)
            (bbytes (strB "nip44-v2")) 76).drop 32).take 12)
          [] (padList pt) ++
        hmacBytes
          (((hkdfBytes nonce
            (hkdfBytes (bbytes (strB "nip44-v2"))
              (bbytes (natToBeBytes 32 (xOf (a * b % nSecp)))) [] 32)
            (bbytes (strB "nip44-v2")) 76).drop 44).take 32)
          (nonce ++ chachaEncrypt
            ((hkdfBytes nonce
              (hkdfBytes (bbytes (strB "nip44-v2"))
                (bbytes (natToBeBytes 32 (xOf (a * b % nSecp)))) [] 32)
              (bbytes (strB "nip44-v2")) 76).take 32)
            (((hkdfBytes nonce
              (hkdfBytes (bbytes (strB "nip44-v2"))
                (bbytes (natToBeBytes 32 (xOf (a * b % nSecp)))) [] 32)
              (bbytes (strB "nip44-v2")) 76).drop 32).take 12)
            [] (padList pt))))) := by
  rw [nip44_payload, derive_conversation_key_eval a b ha0 ha1 hb0 hb1]
  simp only [exceptBind_ok]
  rw [pad_eval pt h1 h2]
  simp only [exceptBind_ok]
  rw [List.append_assoc]

theorem nip44_decrypt_eval
    (bk : Nat) (senderPub ck nonce padded km ctx mc : List SByte)
    (hck : derive_conversation_key bk senderPub = Except.ok ck)
    (hkm : km = hkdfBytes nonce ck (bbytes (strB "nip44-v2")) 76)
    (hctx : ctx = chachaEncrypt (km.take 32) ((km.drop 32).take 12) [] padded)
    (hmc : mc = hmacBytes ((km.drop 44).take 32) (nonce ++ ctx))
    (hn : nonce.length = 32) (hpadlen : 34 ≤ padded.length) :
    nip44_decrypt bk senderPub (b64encode (SByte.b 2 :: (nonce ++ (ctx ++ mc)))) =
      (unpad padded) >>= (fun pt =>
        if validUtf8 pt then Except.ok pt else Except.error CryptoError.DecryptionFailed) := by
  have hctxlen : ctx.length = padded.length + 16 := by
    simp [hctx, chachaEncrypt]
  have hmclen : mc.length = 32 := by simp [hmc, hmacBytes]
  have hplen : (SByte.b 2 :: (nonce ++ (ctx ++ mc))).length = 65 + ctx.length := by
    simp [hn, hmclen]
    omega
  rw [nip44_decrypt, b64decode_b64encode]
  simp only [exceptBind_ok, listLen_eq]
  rw [if_neg (by rw [hplen]; omega)]
  rw [if_neg (by simp)]
  rw [List.take_left' hn, List.drop_left' hn]
  rw [hplen]
  have h65 : 65 + ctx.length - 65 = ctx.length := by omega
  rw [h65, List.take_left' rfl]
  have h32 : 65 + ctx.length - 32 = (32 + ctx.length) + 1 := by omega
  rw [h32, List.drop_succ_cons]
  rw [show 32 + ctx.length = nonce.length + ctx.length by rw [hn]]
  rw [show (nonce ++ (ctx ++ mc)) = ((nonce ++ ctx) ++ mc) from (List.append_assoc _ _ _).symm]
  rw [List.drop_left' (by simp)]
  rw [hck]
  simp only [exceptBind_ok]
  rw [if_neg (by
    rw [hmc, hkm]
    simp)]
  rw [show ctx = chachaEncrypt (km.take 32) ((km.drop 32).take 12) [] padded from hctx,
    hkm, chachaDecrypt_chachaEncrypt]

/-- **C3.** For every plaintext of 1 to 65535 bytes that is valid UTF-8
and every two keypairs `A = (a, ·)` and `B = (b, ·)`, decrypting with B's
private key and A's public key the output of `nip44_encrypt` under A's
private key and B's public key returns the original plaintext
(`nip44.rs` lines 36-82, 85-137 and 266-328). -/
theorem nip44_encrypt_decrypt_roundtrip
    (a b : Nat) (ha0 : 0 < a) (ha1 : a < nSecp) (hb0 : 0 < b) (hb1 : b < nSecp)
    (pt nonce : List SByte) (h1 : 1 ≤ pt.length) (h2 : pt.length ≤ 65535)
    (hutf : validUtf8 pt = true) (hn : nonce.length = 32) :
    ∃ c, nip44_encrypt a (pubXBytes b) pt nonce = .ok c ∧
      nip44_decrypt b (pubXBytes a) c = .ok pt := by
  have hpay := nip44_payload_eval a b ha0 ha1 hb0 hb1 pt nonce h1 h2
  have hck := derive_conversation_key_eval b a hb0 hb1 ha0 ha1
  rw [Nat.mul_comm b a] at hck
  have hpadlen : 34 ≤ (padList pt).length := by
    rw [padList_length pt h1 h2]
    have := calcPaddedLen_ge32 pt.length h2
    omega
  apply Exists.intro
  constructor
  · rw [nip44_encrypt, hpay]
    rfl
  · rw [nip44_decrypt_eval b (pubXBytes a) _ nonce (padList pt) _ _ _ hck rfl rfl rfl hn hpadlen]
    rw [unpad_padList pt h1 h2]
    simp [hutf]

/-- Witness for C3 at `a = 1`, `b = 2`, plaintext `"hi"`, a zero nonce. -/
theorem nip44_encrypt_decrypt_roundtrip_witness :
    (0 < 1 ∧ 1 < nSecp ∧ 0 < 2 ∧ 2 < nSecp ∧
      1 ≤ (bbytes (strB "hi")).length ∧ (bbytes (strB "hi")).length ≤ 65535 ∧
      validUtf8 (bbytes (strB "hi")) = true ∧
      (List.replicate 32 (SByte.b 0)).length = 32) ∧
    ∃ c, nip44_encrypt 1 (pubXBytes 2) (bbytes (strB "hi")) (List.replicate 32 (SByte.b 0)) = .ok c ∧
      nip44_decrypt 2 (pubXBytes 1) c = .ok (bbytes (strB "hi")) :=
  ⟨⟨by decide, by decide, by decide, by decide, by decide, by decide, by decide, by decide⟩,
    nip44_encrypt_decrypt_roundtrip 1 2 (by decide) (by decide) (by decide) (by decide)
      (bbytes (strB "hi")) (List.replicate 32 (SByte.b 0)) (by decide) (by decide)
      (by decide) (by decide)⟩

/-! ## NIP-44 tamper detection (claim C5) -/

theorem take_set_of_le {α : Type} (a : α) {n m : Nat} (l : List α) (h : m ≤ n) :
    (l.set n a).take m = l.take m := by
  rw [List.set_take, List.set_eq_of_length_le]
  exact le_trans (List.length_take_le m l) h

theorem set_ne_of_get_ne {α : Type} {l : List α} {n : Nat} (h : n < l.length) {x : α}
    (hx : x ≠ l.get ⟨n, h⟩) : l.set n x ≠ l := by
  intro he
  apply hx
  have h2 : n < (l.set n x).length := by simpa using h
  have h3 : (l.set n x).get ⟨n, h2⟩ = l.get ⟨n, h⟩ := by rw [List.get_of_eq he]
  rw [← h3]
  simp

/-- Reduction of `nip44_decrypt` on a version-2 payload down to the
MAC check (the checks before the MAC pass). -/
theorem nip44_decrypt_reaches_mac
    (bk : Nat) (senderPub ck rest : List SByte)
    (hck : derive_conversation_key bk senderPub = Except.ok ck)
    (hrl : 98 ≤ rest.length) :
    nip44_decrypt bk senderPub (b64encode (SByte.b 2 :: rest)) =
      (if hmacBytes (((hkdfBytes (rest.take 32) ck (bbytes (strB "nip44-v2")) 76).drop 44).take 32)
            (rest.take 32 ++ (rest.drop 32).take (rest.length - 64)) ≠
          rest.drop (rest.length - 32) then
        Except.error CryptoError.InvalidMac
      else
        match chachaDecrypt
            ((hkdfBytes (rest.take 32) ck (bbytes (strB "nip44-v2")) 76).take 32)
            (((hkdfBytes (rest.take 32) ck (bbytes (strB "nip44-v2")) 76).drop 32).take 12)
            [] ((rest.drop 32).take (rest.length - 64)) with
        | none => Except.error CryptoError.DecryptionFailed
        | some padded =>
            (unpad padded) >>= (fun pt =>
              if validUtf8 pt then Except.ok pt
              else Except.error CryptoError.DecryptionFailed)) := by
  rw [nip44_decrypt, b64decode_b64encode]
  simp only [exceptBind_ok, listLen_eq]
  rw [if_neg (by simp only [List.length_cons]; omega)]
  rw [if_neg (by simp)]
  have h65 : (SByte.b 2 :: rest).length - 65 = rest.length - 64 := by
    simp only [List.length_cons]
    omega
  have h32 : (SByte.b 2 :: rest).length - 32 = (rest.length - 32) + 1 := by
    simp only [List.length_cons]
    omega
  rw [h65, h32, List.drop_succ_cons, hck]
  simp only [exceptBind_ok]

set_option maxHeartbeats 1000000 in
/-- **C5.** For every NIP-44 payload produced by encryption, changing any
single byte of the base64-decoded payload after the version byte makes
decryption fail with `InvalidMac` (not `DecryptionFailed`): the HMAC over
`nonce ‖ ciphertext` is verified before any AEAD decryption is attempted
(`nip44.rs` lines 266-328, MAC-then-decrypt). -/
theorem nip44_flip_invalid_mac
    (a b : Nat) (ha0 : 0 < a) (ha1 : a < nSecp) (hb0 : 0 < b) (hb1 : b < nSecp)
    (pt nonce p : List SByte)
    (h1 : 1 ≤ pt.length) (h2 : pt.length ≤ 65535) (hn : nonce.length = 32)
    (hp : nip44_payload a (pubXBytes b) pt nonce = Except.ok p)
    (i : Nat) (hi1 : 1 ≤ i) (hilt : i < p.length)
    (x : SByte) (hx : x ≠ p.get ⟨i, hilt⟩) :
    nip44_decrypt b (pubXBytes a) (b64encode (p.set i x)) =
      Except.error CryptoError.InvalidMac := by
  rw [nip44_payload_eval a b ha0 ha1 hb0 hb1 pt nonce h1 h2] at hp
  injection hp with hpe
  subst hpe
  have hck := derive_conversation_key_eval b a hb0 hb1 ha0 ha1
  rw [Nat.mul_comm b a] at hck
  set ck := hkdfBytes (bbytes (strB "nip44-v2"))
    (bbytes (natToBeBytes 32 (xOf (a * b % nSecp)))) [] 32 with hckdef
  set km := hkdfBytes nonce ck (bbytes (strB "nip44-v2")) 76 with hkmdef
  set ctx := chachaEncrypt (km.take 32) ((km.drop 32).take 12) [] (padList pt) with hctxdef
  set mc := hmacBytes ((km.drop 44).take 32) (nonce ++ ctx) with hmcdef
  set rest := nonce ++ (ctx ++ mc) with hrestdef
  have hpadL := padList_length pt h1 h2
  have hP32 := calcPaddedLen_ge32 pt.length h2
  have hctxlen : ctx.length = calcPaddedLen pt.length + 18 := by
    simp only [hctxdef, chachaEncrypt, List.length_append, List.length_cons,
      List.length_replicate, hpadL]
    omega
  have hmclen : mc.length = 32 := by simp [hmcdef, hmacBytes]
  have hrestlen : rest.length = 64 + ctx.length := by
    simp only [hrestdef, List.length_append, hn, hmclen]
    omega
  obtain ⟨j, rfl⟩ : ∃ j, i = j + 1 := ⟨i - 1, by omega⟩
  have hjlt : j < rest.length := by
    simp only [List.length_cons] at hilt
    omega
  rw [List.set_cons_succ,
    nip44_decrypt_reaches_mac b (pubXBytes a) ck (rest.set j x) hck
      (by rw [List.length_set, hrestlen]; omega)]
  have hslen : (rest.set j x).length = 64 + ctx.length := by
    rw [List.length_set, hrestlen]
  rw [hslen]
  have e1 : 64 + ctx.length - 64 = ctx.length := by omega
  have e2 : 64 + ctx.length - 32 = 32 + ctx.length := by omega
  rw [e1, e2]
  have hgetp : (SByte.b 2 :: rest).get ⟨j + 1, hilt⟩ = rest.get ⟨j, hjlt⟩ :=
    List.get_cons_succ
  rw [hgetp] at hx
  rcases Nat.lt_or_ge j 32 with hj | hj
  · -- flip inside the nonce region
    have hjn : j < nonce.length := by omega
    have hA1 : (rest.set j x).take 32 = nonce.set j x := by
      rw [List.set_take]
      congr 1
      rw [hrestdef]
      exact List.take_left' hn
    have hA2 : (rest.set j x).drop 32 = ctx ++ mc := by
      rw [List.drop_set_of_lt x rest hj, hrestdef]
      exact List.drop_left' hn
    have hA3 : (rest.set j x).drop (32 + ctx.length) = mc := by
      rw [List.drop_set_of_lt x rest (by omega), hrestdef,
        show nonce ++ (ctx ++ mc) = (nonce ++ ctx) ++ mc from (List.append_assoc _ _ _).symm]
      exact List.drop_left' (by simp [hn])
    have hA4 : (ctx ++ mc).take ctx.length = ctx := List.take_left' rfl
    simp only [hA1, hA2, hA3, hA4]
    split
    · rfl
    · next hcon =>
        exfalso
        have heq := not_not.mp hcon
        rw [hmcdef, hmacBytes, hmacBytes] at heq
        have hhm := (List.cons.injEq _ _ _ _ ▸ heq).1
        injection hhm with hk1 hd1
        have hne : nonce.set j x = nonce := List.append_cancel_right hd1
        have h1 : rest[j]? = nonce[j]? := by
          rw [hrestdef]
          exact List.getElem?_append_left hjn
        have hget' : rest.get ⟨j, hjlt⟩ = nonce.get ⟨j, hjn⟩ := by
          have h2 : rest[j]? = some (rest.get ⟨j, hjlt⟩) := List.getElem?_eq_getElem hjlt
          have h3 : nonce[j]? = some (nonce.get ⟨j, hjn⟩) := List.getElem?_eq_getElem hjn
          rw [h2, h3] at h1
          exact Option.some.inj h1
        exact set_ne_of_get_ne hjn (hget' ▸ hx) hne
  · rcases Nat.lt_or_ge j (32 + ctx.length) with hj2 | hj2
    · -- flip inside the ciphertext region
      have hB1 : (rest.set j x).take 32 = nonce := by
        rw [take_set_of_le x rest hj, hrestdef]
        exact List.take_left' hn
      have hB2 : (rest.set j x).drop 32 = (ctx.set (j - 32) x) ++ mc := by
        have hd : (rest.set j x).drop 32 = (rest.drop 32).set (j - 32) x := by
          rw [List.set_drop, show 32 + (j - 32) = j by omega]
        rw [hd, hrestdef, List.drop_left' hn]
        exact List.set_append_left _ _ (by omega)
      have hB3 : (rest.set j x).drop (32 + ctx.length) = mc := by
        rw [List.drop_set_of_lt x rest (by omega), hrestdef,
          show nonce ++ (ctx ++ mc) = (nonce ++ ctx) ++ mc from (List.append_assoc _ _ _).symm]
        exact List.drop_left' (by simp [hn])
      have hB4 : ((ctx.set (j - 32) x) ++ mc).take ctx.length = ctx.set (j - 32) x :=
        List.take_left' (by simp)
      simp only [hB1, hB2, hB3, hB4]
      split
      · rfl
      · next hcon =>
          exfalso
          have heq := not_not.mp hcon
          rw [hmcdef, hmacBytes, hmacBytes] at heq
          have hhm := (List.cons.injEq _ _ _ _ ▸ heq).1
          injection hhm with hk1 hd1
          have hne : ctx.set (j - 32) x = ctx := List.append_cancel_left hd1
          have hjc : j - 32 < ctx.length := by omega
          have h1 : rest[j]? = ctx[j - 32]? := by
            rw [hrestdef, List.getElem?_append_right (by omega : nonce.length ≤ j), hn]
            exact List.getElem?_append_left hjc
          have hget' : rest.get ⟨j, hjlt⟩ = ctx.get ⟨j - 32, hjc⟩ := by
            have h2 : rest[j]? = some (rest.get ⟨j, hjlt⟩) := List.getElem?_eq_getElem hjlt
            have h3 : ctx[j - 32]? = some (ctx.get ⟨j - 32, hjc⟩) := List.getElem?_eq_getElem hjc
            rw [h2, h3] at h1
            exact Option.some.inj h1
          exact set_ne_of_get_ne hjc (hget' ▸ hx) hne
    · -- flip inside the MAC region
      have hjmc : j - 32 - ctx.length < mc.length := by
        rw [hmclen]
        omega
      have hC1 : (rest.set j x).take 32 = nonce := by
        rw [take_set_of_le x rest (by omega), hrestdef]
        exact List.take_left' hn
      have hC2 : ((rest.set j x).drop 32).take ctx.length = ctx := by
        have hd : (rest.set j x).drop 32 = (rest.drop 32).set (j - 32) x := by
          rw [List.set_drop, show 32 + (j - 32) = j by omega]
        rw [hd, hrestdef, List.drop_left' hn,
          List.set_append_right _ _ (by omega)]
        exact List.take_left' rfl
      have hC3 : (rest.set j x).drop (32 + ctx.length) =
          mc.set (j - 32 - ctx.length) x := by
        have hd : (rest.set j x).drop (32 + ctx.length) =
            (rest.drop (32 + ctx.length)).set (j - (32 + ctx.length)) x := by
          rw [List.set_drop, show 32 + ctx.length + (j - (32 + ctx.length)) = j by omega]
        rw [hd, hrestdef,
          show nonce ++ (ctx ++ mc) = (nonce ++ ctx) ++ mc from (List.append_assoc _ _ _).symm,
          List.drop_left' (by simp [hn]),
          show j - (32 + ctx.length) = j - 32 - ctx.length by omega]
      simp only [hC1, hC2, hC3]
      split
      · rfl
      · next hcon =>
          exfalso
          have heq := not_not.mp hcon
          have h1 : rest[j]? = mc[j - 32 - ctx.length]? := by
            rw [hrestdef, List.getElem?_append_right (by omega : nonce.length ≤ j), hn,
              List.getElem?_append_right (by omega : ctx.length ≤ j - 32)]
          have hget' : rest.get ⟨j, hjlt⟩ = mc.get ⟨j - 32 - ctx.length, hjmc⟩ := by
            have h2 : rest[j]? = some (rest.get ⟨j, hjlt⟩) := List.getElem?_eq_getElem hjlt
            have h3 : mc[j - 32 - ctx.length]? =
                some (mc.get ⟨j - 32 - ctx.length, hjmc⟩) := List.getElem?_eq_getElem hjmc
            rw [h2, h3] at h1
            exact Option.some.inj h1
          exact set_ne_of_get_ne hjmc (hget' ▸ hx) (Eq.symm heq)

set_option maxRecDepth 4000 in
/-- Witness for C5: the concrete payload for plaintext `"secret"` between
keypairs `1` and `2`, with byte 40 (inside the ciphertext region) changed
to zero, decrypts to `InvalidMac`. -/
theorem nip44_flip_invalid_mac_witness :
    nip44_decrypt 2 (pubXBytes 1)
      (b64encode (((nip44_payload 1 (pubXBytes 2) (bbytes (strB "secret"))
        (List.replicate 32 (SByte.b 0))).toOption.getD []).set 40 (SByte.b 0))) =
      Except.error CryptoError.InvalidMac := by
  have hp : nip44_payload 1 (pubXBytes 2) (bbytes (strB "secret"))
      (List.replicate 32 (SByte.b 0)) =
      Except.ok ((nip44_payload 1 (pubXBytes 2) (bbytes (strB "secret"))
        (List.replicate 32 (SByte.b 0))).toOption.getD []) := by rfl
  exact nip44_flip_invalid_mac 1 2 (by decide) (by decide) (by decide) (by decide)
    (bbytes (strB "secret")) (List.replicate 32 (SByte.b 0)) _
    (by decide) (by decide) (by decide) hp 40 (by decide) (by decide)
    (SByte.b 0) (by decide)

/-! ## `nostr.rs`: events, canonical serialization, signing -/

/-- `UnsignedEvent` from `nostr.rs`. -/
structure UnsignedEvent where
  pubkey : List SByte
  created_at : Int
  kind : Int
  tags : List (List (List SByte))
  content : List SByte
deriving DecidableEq

/-- `NostrEvent` from `nostr.rs`. -/
structure NostrEvent where
  id : List SByte
  pubkey : List SByte
  created_at : Int
  kind : Int
  tags : List (List (List SByte))
  content : List SByte
  sig : List SByte
deriving DecidableEq

/-- The lowercase-hex digit character for `n < 16`. -/
def hexDig (n : Nat) : Nat := if n < 10 then 48 + n else 87 + n

/-- `serde_json` string escaping, per byte: `"` and `\` get a backslash,
the five short control escapes are used, other control bytes become
`\u00XX`, and everything else (including symbolic transport bytes, which
are ASCII in reality) passes through. -/
def escapeByte (x : SByte) : List SByte :=
  match x with
  | .b 34 => [.b 92, .b 34]
  | .b 92 => [.b 92, .b 92]
  | .b 8 => [.b 92, .b 98]
  | .b 9 => [.b 92, .b 116]
  | .b 10 => [.b 92, .b 110]
  | .b 12 => [.b 92, .b 102]
  | .b 13 => [.b 92, .b 114]
  | .b n => if n < 32 then
      [.b 92, .b 117, .b 48, .b 48, .b (hexDig (n / 16)), .b (hexDig (n % 16))]
    else [.b n]
  | s => [s]

/-- A JSON string literal: quote, escaped bytes, quote. -/
def jsonStr (s : List SByte) : List SByte :=
  [SByte.b 34] ++ s.flatMap escapeByte ++ [SByte.b 34]

/-- Decimal ASCII digits of a natural number (fuel-indexed; 30 digits
cover every `i64`). -/
def natDecimal : Nat → Nat → List Nat
  | 0, _ => []
  | f + 1, n => if n < 10 then [48 + n] else natDecimal f (n / 10) ++ [48 + n % 10]

/-- Decimal ASCII of an integer, as `serde_json` prints `i64`/`i32`. -/
def intDecimal (i : Int) : List SByte :=
  if i < 0 then SByte.b 45 :: bbytes (natDecimal 30 i.natAbs)
  else bbytes (natDecimal 30 i.toNat)

/-- JSON array of strings (a single tag), compact as `serde_json` emits. -/
def jsonStrArray (l : List (List SByte)) : List SByte :=
  [SByte.b 91] ++ (List.intercalate [SByte.b 44] (l.map jsonStr)) ++ [SByte.b 93]

/-- JSON array of arrays of strings (the `tags` field). -/
def jsonTags (tags : List (List (List SByte))) : List SByte :=
  [SByte.b 91] ++ (List.intercalate [SByte.b 44] (tags.map jsonStrArray)) ++ [SByte.b 93]

/-- The NIP-01 canonical serialization from `nostr.rs` lines 44-55:
`[0,"<pubkey>",<created_at>,<kind>,<tags-as-json>,<content-as-json>]`
(the pubkey is interpolated raw, tags and content are JSON-encoded). -/
def serializeCanonical (e : UnsignedEvent) : List SByte :=
  bbytes (strB "[0,\"") ++ e.pubkey ++ bbytes (strB "\",")
    ++ intDecimal e.created_at ++ [SByte.b 44]
    ++ intDecimal e.kind ++ [SByte.b 44]
    ++ jsonTags e.tags ++ [SByte.b 44]
    ++ jsonStr e.content ++ [SByte.b 93]

/-- `compute_event_id` from `nostr.rs` lines 31-41: SHA-256 of the
canonical serialization, hex-encoded (hex transport is the identity in
this model). -/
def compute_event_id (e : UnsignedEvent) : Except CryptoError (List SByte) :=
  .ok (shaBytes (serializeCanonical e))

/-- `get_public_key` from `keys.rs` lines 60-71. -/
def get_public_key (privateKey : Nat) : Except CryptoError (List SByte) :=
  if ¬ scalarValid privateKey then .error .InvalidKey
  else .ok (pubXBytes privateKey)

/-- `sign_event` from `nostr.rs` lines 58-86: compute the id, decode it
to 32 digest bytes and Schnorr-sign it with the private key. -/
def sign_event (privateKey : Nat) (e : UnsignedEvent) : Except CryptoError NostrEvent :=
  if ¬ scalarValid privateKey then .error .InvalidKey
  else
    match compute_event_id e with
    | .error er => .error er
    | .ok id =>
      if id.length ≠ 32 then .error .SigningFailed
      else
        .ok { id := id, pubkey := e.pubkey, created_at := e.created_at, kind := e.kind,
              tags := e.tags, content := e.content,
              sig := sigBytes (pubXBytes privateKey) id }

/-- `verify_event` from `nostr.rs` lines 89-146: recompute and compare
the id, check the pubkey/signature/id shapes, and verify the Schnorr
signature (checked against the canonical signature in this model). -/
def verify_event (e : NostrEvent) : Bool :=
  match compute_event_id
      { pubkey := e.pubkey, created_at := e.created_at, kind := e.kind,
        tags := e.tags, content := e.content } with
  | .error _ => false
  | .ok expected =>
    if e.id ≠ expected then false
    else if e.pubkey.length ≠ 32 then false
    else if e.sig.length ≠ 64 then false
    else if e.id.length ≠ 32 then false
    else e.sig = sigBytes e.pubkey e.id

/-! ## `nip17.rs`: full-event JSON serialization and parsing -/

/-- `serialize_event` from `nip17.rs` lines 186-197: the `serde_json`
object for `EventJsonOut`, fields in declaration order, compact. -/
def serializeEventJson (e : NostrEvent) : List SByte :=
  bbytes (strB "\x7b\"id\":") ++ jsonStr e.id
    ++ bbytes (strB ",\"pubkey\":") ++ jsonStr e.pubkey
    ++ bbytes (strB ",\"created_at\":") ++ intDecimal e.created_at
    ++ bbytes (strB ",\"kind\":") ++ intDecimal e.kind
    ++ bbytes (strB ",\"tags\":") ++ jsonTags e.tags
    ++ bbytes (strB ",\"content\":") ++ jsonStr e.content
    ++ bbytes (strB ",\"sig\":") ++ jsonStr e.sig
    ++ [SByte.b 125]

/-- A JSON value, as `serde_json` parses it (numbers restricted to the
integers that occur in event JSON). -/
inductive JVal where
  | str (s : List SByte) : JVal
  | num (i : Int) : JVal
  | arr (items : List JVal) : JVal
  | obj (fields : List (List SByte × JVal)) : JVal
  | jbool (b : Bool) : JVal
  | null : JVal

/-- Skip JSON whitespace. -/
def skipWs : List SByte → List SByte
  | .b 32 :: r => skipWs r
  | .b 9 :: r => skipWs r
  | .b 10 :: r => skipWs r
  | .b 13 :: r => skipWs r
  | l => l

/-- Hex digit value of an ASCII byte. -/
def hexVal (c : Nat) : Option Nat :=
  if 48 ≤ c ∧ c ≤ 57 then some (c - 48)
  else if 97 ≤ c ∧ c ≤ 102 then some (c - 87)
  else if 65 ≤ c ∧ c ≤ 70 then some (c - 55)
  else none

/-- Tail-recursive worker for `parseStrBody` (accumulates in reverse). -/
def parseStrGo : List SByte → List SByte → Option (List SByte × List SByte)
  | _, [] => none
  | acc, .b 34 :: r => some (acc.reverse, r)
  | acc, .b 92 :: .b 34 :: r => parseStrGo (SByte.b 34 :: acc) r
  | acc, .b 92 :: .b 92 :: r => parseStrGo (SByte.b 92 :: acc) r
  | acc, .b 92 :: .b 47 :: r => parseStrGo (SByte.b 47 :: acc) r
  | acc, .b 92 :: .b 98 :: r => parseStrGo (SByte.b 8 :: acc) r
  | acc, .b 92 :: .b 102 :: r => parseStrGo (SByte.b 12 :: acc) r
  | acc, .b 92 :: .b 110 :: r => parseStrGo (SByte.b 10 :: acc) r
  | acc, .b 92 :: .b 114 :: r => parseStrGo (SByte.b 13 :: acc) r
  | acc, .b 92 :: .b 116 :: r => parseStrGo (SByte.b 9 :: acc) r
  | acc, .b 92 :: .b 117 :: .b h1 :: .b h2 :: .b h3 :: .b h4 :: r =>
      match hexVal h1, hexVal h2, hexVal h3, hexVal h4 with
      | some d1, some d2, some d3, some d4 =>
          let v := ((d1 * 16 + d2) * 16 + d3) * 16 + d4
          if v < 128 then parseStrGo (SByte.b v :: acc) r
          else none
      | _, _, _, _ => none
  | _, .b 92 :: _ => none
  | acc, c :: r => parseStrGo (c :: acc) r

/-- Parse the body of a JSON string after the opening quote, unescaping. -/
def parseStrBody (l : List SByte) : Option (List SByte × List SByte) := parseStrGo [] l

/-- Is this a decimal digit byte? -/
def isDigitB (x : SByte) : Bool :=
  match x with
  | .b n => 48 ≤ n && n ≤ 57
  | _ => false

/-- Parse a nonempty run of decimal digits. -/
def parseDigits : List SByte → Nat → Option (Nat × List SByte)
  | .b n :: r, acc =>
      if 48 ≤ n ∧ n ≤ 57 then
        match parseDigits r (acc * 10 + (n - 48)) with
        | some p => some p
        | none => some (acc * 10 + (n - 48), r)
      else none
  | _, _ => none

mutual

/-- Fuel-indexed JSON value reader (recursive descent). -/
def parseJ : Nat → List SByte → Option (JVal × List SByte)
  | 0, _ => none
  | fuel + 1, input =>
    match skipWs input with
    | .b 34 :: r => (parseStrBody r).map (fun p => (JVal.str p.1, p.2))
    | .b 91 :: r => parseArr fuel (skipWs r)
    | .b 123 :: r => parseObj fuel (skipWs r)
    | .b 116 :: .b 114 :: .b 117 :: .b 101 :: r => some (JVal.jbool true, r)
    | .b 102 :: .b 97 :: .b 108 :: .b 115 :: .b 101 :: r => some (JVal.jbool false, r)
    | .b 110 :: .b 117 :: .b 108 :: .b 108 :: r => some (JVal.null, r)
    | .b 45 :: r =>
        match parseDigits r 0 with
        | some p => some (JVal.num (-(p.1 : Int)), p.2)
        | none => none
    | l =>
        match parseDigits l 0 with
        | some p => some (JVal.num (p.1 : Int), p.2)
        | none => none

/-- Array items after `[` (fuel-indexed). -/
def parseArr : Nat → List SByte → Option (JVal × List SByte)
  | 0, _ => none
  | fuel + 1, input =>
    match input with
    | .b 93 :: r => some (JVal.arr [], r)
    | _ =>
      match parseJ fuel input with
      | some (v, r1) => parseArrRest fuel [v] (skipWs r1)
      | none => none

/-- Array continuation: `,` item … or `]` (fuel-indexed; accumulates in
reverse). -/
def parseArrRest : Nat → List JVal → List SByte → Option (JVal × List SByte)
  | 0, _, _ => none
  | fuel + 1, acc, input =>
    match input with
    | .b 93 :: r => some (JVal.arr acc.reverse, r)
    | .b 44 :: r =>
      match parseJ fuel (skipWs r) with
      | some (v, r1) => parseArrRest fuel (v :: acc) (skipWs r1)
      | none => none
    | _ => none

/-- Object fields after the opening brace (fuel-indexed). -/
def parseObj : Nat → List SByte → Option (JVal × List SByte)
  | 0, _ => none
  | fuel + 1, input =>
    match input with
    | .b 125 :: r => some (JVal.obj [], r)
    | .b 34 :: r =>
      match parseStrBody r with
      | some (key, r1) =>
        match skipWs r1 with
        | .b 58 :: r2 =>
          match parseJ fuel (skipWs r2) with
          | some (v, r3) => parseObjRest fuel [(key, v)] (skipWs r3)
          | none => none
        | _ => none
      | none => none
    | _ => none

/-- Object continuation: `,` pair … or the closing brace. -/
def parseObjRest : Nat → List (List SByte × JVal) → List SByte →
    Option (JVal × List SByte)
  | 0, _, _ => none
  | fuel + 1, acc, input =>
    match input with
    | .b 125 :: r => some (JVal.obj acc.reverse, r)
    | .b 44 :: r =>
      match skipWs r with
      | .b 34 :: r1 =>
        match parseStrBody r1 with
        | some (key, r2) =>
          match skipWs r2 with
          | .b 58 :: r3 =>
            match parseJ fuel (skipWs r3) with
            | some (v, r4) => parseObjRest fuel ((key, v) :: acc) (skipWs r4)
            | none => none
          | _ => none
        | none => none
      | _ => none
    | _ => none

end

/-! ## `nip17.rs`: deserialization and the gift-wrap pipeline -/

/-- Association lookup in a parsed JSON object. -/
def getField (fields : List (List SByte × JVal)) (name : String) : Option JVal :=
  match fields.find? (fun p => p.1 = bbytes (strB name)) with
  | some p => some p.2
  | none => none

def asStr : JVal → Option (List SByte)
  | .str s => some s
  | _ => none

def asInt : JVal → Option Int
  | .num i => some i
  | _ => none

def asStrList : JVal → Option (List (List SByte))
  | .arr items => items.mapM asStr
  | _ => none

def asTags : JVal → Option (List (List (List SByte)))
  | .arr items => items.mapM asStrList
  | _ => none

/-- Contiguous-substring test (`str::contains`). -/
def containsSub (hay pat : List SByte) : Bool :=
  match hay with
  | [] => pat.isEmpty
  | _ :: t => pat.isPrefixOf hay || containsSub t pat

/-- `deserialize_event` from `nip17.rs` lines 200-217: the prototype
pollution substring check, then `serde_json::from_str::<EventJsonIn>`. -/
def deserialize_event (json : List SByte) : Except CryptoError NostrEvent :=
  if containsSub json (bbytes (strB "__proto__"))
      || containsSub json (bbytes (strB "constructor"))
      || containsSub json (bbytes (strB "prototype")) then
    .error .InvalidJson
  else
    match parseJ (listLen json + 1) json with
    | some (JVal.obj fields, rest) =>
      if (skipWs rest).isEmpty then
        match getField fields "id", getField fields "pubkey",
            getField fields "created_at", getField fields "kind",
            getField fields "tags", getField fields "content",
            getField fields "sig" with
        | some vid, some vpub, some vca, some vkind, some vtags, some vcontent, some vsig =>
          match asStr vid, asStr vpub, asInt vca, asInt vkind,
              asTags vtags, asStr vcontent, asStr vsig with
          | some id, some pubkey, some created_at, some kind,
              some tags, some content, some sig =>
            .ok { id := id, pubkey := pubkey, created_at := created_at, kind := kind,
                  tags := tags, content := content, sig := sig }
          | _, _, _, _, _, _, _ => .error .InvalidJson
        | _, _, _, _, _, _, _ => .error .InvalidJson
      else .error .InvalidJson
    | _ => .error .InvalidJson

/-- `UnwrapResult` from `nip17.rs`. -/
structure UnwrapResult where
  rumor : NostrEvent
  sender_pubkey : List SByte
  seal_verified : Bool
deriving DecidableEq

/-- `create_rumor` from `nip17.rs` lines 31-61.  The sampled timestamp
offset (uniform in `[-172800, 172800]`) is an explicit argument. -/
def create_rumor (senderPubkey recipientPubkey content : List SByte)
    (createdAt offset : Int) : Except CryptoError NostrEvent :=
  let randomizedTime := createdAt + offset
  let unsigned : UnsignedEvent :=
    { pubkey := senderPubkey, created_at := randomizedTime, kind := 14,
      tags := [[bbytes (strB "p"), recipientPubkey]], content := content }
  match compute_event_id unsigned with
  | .error e => .error e
  | .ok id =>
    .ok { id := id, pubkey := unsigned.pubkey, created_at := unsigned.created_at,
          kind := unsigned.kind, tags := unsigned.tags, content := unsigned.content,
          sig := [] }

/-- `create_seal` from `nip17.rs` lines 64-96.  The timestamp offset and
the NIP-44 nonce material are explicit arguments. -/
def create_seal (senderPrivateKey : Nat) (recipientPubkey : List SByte)
    (rumor : NostrEvent) (createdAt offset : Int) (nonce : List SByte) :
    Except CryptoError NostrEvent := do
  let rumorJson := serializeEventJson rumor
  let encryptedRumor ← nip44_encrypt senderPrivateKey recipientPubkey rumorJson nonce
  let randomizedTime := createdAt + offset
  let senderPubkey ← get_public_key senderPrivateKey
  sign_event senderPrivateKey
    { pubkey := senderPubkey, created_at := randomizedTime, kind := 13,
      tags := [], content := encryptedRumor }

/-- `create_gift_wrap` from `nip17.rs` lines 99-130.  The ephemeral
private key, timestamp offset and NIP-44 nonce are explicit arguments. -/
def create_gift_wrap (recipientPubkey : List SByte) (sealEv : NostrEvent)
    (createdAt : Int) (ephPriv : Nat) (offset : Int) (nonce : List SByte) :
    Except CryptoError NostrEvent := do
  let sealJson := serializeEventJson sealEv
  let encryptedSeal ← nip44_encrypt ephPriv recipientPubkey sealJson nonce
  let randomizedTime := createdAt + offset
  sign_event ephPriv
    { pubkey := pubXBytes ephPriv, created_at := randomizedTime, kind := 1059,
      tags := [[bbytes (strB "p"), recipientPubkey]], content := encryptedSeal }

/-- `unwrap_gift_wrap` from `nip17.rs` lines 133-183. -/
def unwrap_gift_wrap (recipientPrivateKey : Nat) (giftWrap : NostrEvent) :
    Except CryptoError UnwrapResult := do
  if giftWrap.kind ≠ 1059 then Except.error CryptoError.InvalidCiphertext
  else do
    let sealJson ← nip44_decrypt recipientPrivateKey giftWrap.pubkey giftWrap.content
    let sealEv ← deserialize_event sealJson
    if sealEv.kind ≠ 13 then Except.error CryptoError.InvalidCiphertext
    else do
      let sealVerified := verify_event sealEv
      let senderPubkey := sealEv.pubkey
      let rumorJson ← nip44_decrypt recipientPrivateKey senderPubkey sealEv.content
      let rumor ← deserialize_event rumorJson
      if rumor.kind ≠ 14 then Except.error CryptoError.InvalidCiphertext
      else Except.ok { rumor := rumor, sender_pubkey := senderPubkey,
                       seal_verified := sealVerified }

/-! ## Concrete gift-wrap executions (claims C1 and C6) -/

/-- A default event (used only to extract `ok` results of computations
that are proven/checked to succeed). -/
def defaultEvent : NostrEvent :=
  { id := [], pubkey := [], created_at := 0, kind := 0, tags := [], content := [], sig := [] }

/-- The concrete rumor from sender keypair `1` to recipient keypair `2`
with content `"constructor"`, send time 1700000000, timestamp offset 0. -/
def rumorConstructorMsg : NostrEvent :=
  (create_rumor (pubXBytes 1) (pubXBytes 2) (bbytes (strB "constructor"))
    1700000000 0).toOption.getD defaultEvent

/-- The seal over `rumorConstructorMsg` (zero nonce material). -/
def sealConstructorMsg : NostrEvent :=
  (create_seal 1 (pubXBytes 2) rumorConstructorMsg 1700000000 0
    (List.replicate 32 (SByte.b 0))).toOption.getD defaultEvent

/-- The gift wrap over `sealConstructorMsg` (ephemeral key `3`). -/
def wrapConstructorMsg : NostrEvent :=
  (create_gift_wrap (pubXBytes 2) sealConstructorMsg 1700000000 3 0
    (List.replicate 32 (SByte.b 1))).toOption.getD defaultEvent

set_option maxRecDepth 8000 in
set_option maxHeartbeats 8000000 in
/-- **C1 (code bug).** The three-layer wrap of the plaintext
`"constructor"` from keypair `1` to keypair `2` is produced successfully,
yet `unwrap_gift_wrap` with the recipient's key fails with `InvalidJson`:
`deserialize_event` (`nip17.rs` lines 200-204) rejects any JSON text
containing the substring `"constructor"`, including ordinary message
content, so the unwrap round trip claimed by the specification does not
hold on this input. -/
theorem unwrap_gift_wrap_rejects_constructor_content :
    (create_rumor (pubXBytes 1) (pubXBytes 2) (bbytes (strB "constructor"))
        1700000000 0).isOk = true ∧
    (create_seal 1 (pubXBytes 2) rumorConstructorMsg 1700000000 0
        (List.replicate 32 (SByte.b 0))).isOk = true ∧
    (create_gift_wrap (pubXBytes 2) sealConstructorMsg 1700000000 3 0
        (List.replicate 32 (SByte.b 1))).isOk = true ∧
    unwrap_gift_wrap 2 wrapConstructorMsg = Except.error CryptoError.InvalidJson := by
  refine ⟨rfl, rfl, rfl, rfl⟩

/-! ## Seal/wrap content (claim C6) -/

/-- The concrete rumor from keypair `1` to keypair `2` with content
`"hello bob"`. -/
def rumorHello : NostrEvent :=
  (create_rumor (pubXBytes 1) (pubXBytes 2) (bbytes (strB "hello bob"))
    1700000000 0).toOption.getD defaultEvent

/-- The seal over `rumorHello` (zero nonce material). -/
def sealHello : NostrEvent :=
  (create_seal 1 (pubXBytes 2) rumorHello 1700000000 0
    (List.replicate 32 (SByte.b 0))).toOption.getD defaultEvent

/-- The gift wrap over `sealHello` (ephemeral key `3`). -/
def wrapHello : NostrEvent :=
  (create_gift_wrap (pubXBytes 2) sealHello 1700000000 3 0
    (List.replicate 32 (SByte.b 1))).toOption.getD defaultEvent

set_option maxRecDepth 8000 in
set_option maxHeartbeats 4000000 in
/-- **C6 (counterexample).** For the concrete seal over `rumorHello`,
decrypting its content with the sender-recipient conversation key yields
the full-event JSON object serialization of the rumor (`serialize_event`
of `nip17.rs` lines 186-197), which is *not* the NIP-01 canonical array
text `[0,"<pubkey>",…]` that the claim asserts. -/
theorem seal_content_canonical_counterexample :
    (create_seal 1 (pubXBytes 2) rumorHello 1700000000 0
        (List.replicate 32 (SByte.b 0))).isOk = true ∧
    nip44_decrypt 2 (pubXBytes 1) sealHello.content =
      Except.ok (serializeEventJson rumorHello) ∧
    serializeEventJson rumorHello ≠ serializeCanonical
      { pubkey := rumorHello.pubkey, created_at := rumorHello.created_at,
        kind := rumorHello.kind, tags := rumorHello.tags,
        content := rumorHello.content } :=
  ⟨rfl, rfl, by decide⟩

theorem shaBytes_length (d : List SByte) : (shaBytes d).length = 32 := by
  simp [shaBytes]

theorem get_public_key_eval (k : Nat) (hk0 : 0 < k) (hk1 : k < nSecp) :
    get_public_key k = .ok (pubXBytes k) := by
  have hval : scalarValid k = true := by
    simp [scalarValid]
    omega
  simp [get_public_key, hval]

theorem sign_event_eval (k : Nat) (hk0 : 0 < k) (hk1 : k < nSecp) (e : UnsignedEvent) :
    sign_event k e = .ok
      { id := shaBytes (serializeCanonical e), pubkey := e.pubkey,
        created_at := e.created_at, kind := e.kind, tags := e.tags,
        content := e.content,
        sig := sigBytes (pubXBytes k) (shaBytes (serializeCanonical e)) } := by
  have hval : scalarValid k = true := by
    simp [scalarValid]
    omega
  simp [sign_event, hval, compute_event_id, shaBytes_length]

theorem serializeEventJson_len_pos (e : NostrEvent) :
    1 ≤ (serializeEventJson e).length := by
  rw [serializeEventJson]
  simp only [List.length_append]
  have h6 : (bbytes (strB "\x7b\"id\":")).length = 6 := rfl
  omega

set_option maxHeartbeats 2000000 in
/-- **C6 (amended).** For every seal produced by `create_seal`,
decrypting its content with the sender-recipient conversation key yields
exactly the rumor's *full-event JSON object* serialization (the
`serialize_event` of `nip17.rs`, `{"id":…,"sig":…}`), and for every gift
wrap produced by `create_gift_wrap`, decrypting its content with the
ephemeral-recipient conversation key yields exactly the seal's full-event
JSON object serialization.  (The claim as stated names the NIP-01
canonical array text instead; the counterexample refutes that.)  The
UTF-8 hypotheses model the Rust `String` invariant of the serialized
plaintexts. -/
theorem seal_and_wrap_content_decrypt_to_event_json
    (a b e : Nat) (ha0 : 0 < a) (ha1 : a < nSecp) (hb0 : 0 < b) (hb1 : b < nSecp)
    (he0 : 0 < e) (he1 : e < nSecp)
    (rumor : NostrEvent) (t1 o1 t2 o2 : Int) (n1 n2 : List SByte)
    (hn1 : n1.length = 32) (hn2 : n2.length = 32)
    (hr2 : (serializeEventJson rumor).length ≤ 65535)
    (hrutf : validUtf8 (serializeEventJson rumor) = true)
    (sealEv : NostrEvent)
    (hseal : create_seal a (pubXBytes b) rumor t1 o1 n1 = .ok sealEv)
    (hs2 : (serializeEventJson sealEv).length ≤ 65535)
    (hsutf : validUtf8 (serializeEventJson sealEv) = true)
    (wrapEv : NostrEvent)
    (hwrap : create_gift_wrap (pubXBytes b) sealEv t2 e o2 n2 = .ok wrapEv) :
    nip44_decrypt b (pubXBytes a) sealEv.content = .ok (serializeEventJson rumor) ∧
    nip44_decrypt b wrapEv.pubkey wrapEv.content = .ok (serializeEventJson sealEv) := by
  have hr1 : 1 ≤ (serializeEventJson rumor).length := serializeEventJson_len_pos rumor
  obtain ⟨c1, henc1, hdec1⟩ := nip44_encrypt_decrypt_roundtrip a b ha0 ha1 hb0 hb1
    (serializeEventJson rumor) n1 hr1 hr2 hrutf hn1
  simp only [create_seal] at hseal
  rw [henc1] at hseal
  simp only [exceptBind_ok] at hseal
  rw [get_public_key_eval a ha0 ha1] at hseal
  simp only [exceptBind_ok] at hseal
  rw [sign_event_eval a ha0 ha1] at hseal
  injection hseal with hs
  have hc1 : sealEv.content = c1 := by rw [← hs]
  obtain ⟨c2, henc2, hdec2⟩ := nip44_encrypt_decrypt_roundtrip e b he0 he1 hb0 hb1
    (serializeEventJson sealEv) n2 (serializeEventJson_len_pos _) hs2 hsutf hn2
  simp only [create_gift_wrap] at hwrap
  rw [henc2] at hwrap
  simp only [exceptBind_ok] at hwrap
  rw [sign_event_eval e he0 he1] at hwrap
  injection hwrap with hw
  have hp2 : wrapEv.pubkey = pubXBytes e := by rw [← hw]
  have hc2 : wrapEv.content = c2 := by rw [← hw]
  rw [hc1, hp2, hc2]
  exact ⟨hdec1, hdec2⟩

set_option maxRecDepth 8000 in
set_option maxHeartbeats 8000000 in
theorem seal_and_wrap_content_decrypt_to_event_json_witness :
    nip44_decrypt 2 (pubXBytes 1) sealHello.content =
      .ok (serializeEventJson rumorHello) ∧
    nip44_decrypt 2 wrapHello.pubkey wrapHello.content =
      .ok (serializeEventJson sealHello) :=
  seal_and_wrap_content_decrypt_to_event_json 1 2 3 (by decide) (by decide)
    (by decide) (by decide) (by decide) (by decide) rumorHello
    1700000000 0 1700000000 0
    (List.replicate 32 (SByte.b 0)) (List.replicate 32 (SByte.b 1))
    (by decide) (by decide) (by decide) (by decide)
    sealHello rfl (by decide) (by decide) wrapHello rfl

/-! ## `ratchet.rs`: the Double Ratchet (`MessageHeader`,
`RatchetSessionState`)

Rust's in-place mutation is modelled by explicit state passing: every
fallible method that mutates `&mut self` returns a pair of its result and
the state as left behind by the early-return (`?`) control flow.  The
`OsRng` randomness of `DhKeyPair::generate` is an explicit argument. -/

/-- `MAX_SKIP` from `ratchet.rs` line 50. -/
def MAX_SKIP : Nat := 1000

/-- `KDF_RK_INFO` from `ratchet.rs` line 53. -/
def KDF_RK_INFO : List SByte := bbytes (strB "BuildIt-Ratchet-RootKey")

/-- `MessageHeader` from `ratchet.rs` lines 57-64 (`previous_chain_length`
and `message_number` are `u32`). -/
structure MessageHeader where
  dh_public_key : List SByte
  previous_chain_length : Nat
  message_number : Nat
deriving DecidableEq

/-- `MessageHeader::to_bytes` (`ratchet.rs` lines 68-76):
`pubkey_len(1) ‖ pubkey ‖ prev_chain_len(4 BE) ‖ msg_num(4 BE)`; the
length byte is `len as u8`, i.e. the length mod 256. -/
def MessageHeader.to_bytes (h : MessageHeader) : List SByte :=
  SByte.b (listLen h.dh_public_key % 256) ::
    (h.dh_public_key ++
      (bbytes (natToBeBytes 4 h.previous_chain_length) ++
        bbytes (natToBeBytes 4 h.message_number)))

/-- `MessageHeader::from_bytes` (`ratchet.rs` lines 79-102).  The length
byte must be a concrete transport byte to have a numeric value; the two
counter fields are read through `sbytesToNat` (the `try_into` on a
4-byte slice cannot fail). -/
def MessageHeader.from_bytes (bytes : List SByte) :
    Except CryptoError MessageHeader :=
  if listLen bytes < 9 then .error .InvalidCiphertext
  else
    match bytes with
    | .b pkLen :: rest =>
      if listLen bytes < 1 + pkLen + 8 then .error .InvalidCiphertext
      else
        match sbytesToNat ((rest.drop pkLen).take 4),
            sbytesToNat ((rest.drop (pkLen + 4)).take 4) with
        | some prev, some num =>
            .ok { dh_public_key := rest.take pkLen,
                  previous_chain_length := prev, message_number := num }
        | _, _ => .error .InvalidCiphertext
    | _ => .error .InvalidCiphertext

/-- `RatchetMessage` from `ratchet.rs` lines 107-114. -/
structure RatchetMessage where
  header : MessageHeader
  ciphertext : List SByte
  nonce : List SByte
deriving DecidableEq

/-- The compressed 33-byte serialization `PublicKey::serialize()` of the
point with representative scalar `k`: prefix `0x02` for the even-parity
(canonical) representative, `0x03` for the odd one. -/
def serializePoint (k : Nat) : List SByte :=
  let r := k % nSecp
  if 2 * r < nSecp then SByte.b 2 :: bbytes (natToBeBytes 32 r)
  else SByte.b 3 :: bbytes (natToBeBytes 32 (nSecp - r))

/-- `PublicKey::from_slice` on a 33-byte compressed point. -/
def parseCompressedPoint (p : List SByte) : Option Nat :=
  match p with
  | .b 2 :: xs =>
      if xs.length = 32 then (sbytesToNat xs).bind parsePoint02 else none
  | .b 3 :: xs =>
      if xs.length = 32 then (sbytesToNat xs).bind parsePoint03 else none
  | _ => none

/-- `DhKeyPair` from `ratchet.rs` lines 118-121: the 32-byte private key
is its scalar value. -/
structure DhKeyPair where
  private_key : Nat
  public_key : List SByte
deriving DecidableEq

/-- `DhKeyPair::generate` (`ratchet.rs` lines 125-133) with the random
scalar explicit. -/
def DhKeyPair.generate (k : Nat) : DhKeyPair :=
  { private_key := k, public_key := serializePoint k }

/-- `DhKeyPair::dh` (`ratchet.rs` lines 156-170): ECDH, first 32 bytes of
the x-coordinate. -/
def DhKeyPair.dh (kp : DhKeyPair) (theirPublicKey : List SByte) :
    Except CryptoError (List SByte) :=
  if ¬ scalarValid kp.private_key then .error .InvalidKey
  else
    match parseCompressedPoint theirPublicKey with
    | none => .error .InvalidPublicKey
    | some r => .ok (bbytes (natToBeBytes 32 (ecdhX kp.private_key r)))

/-- `kdf_rk` (`ratchet.rs` lines 485-498): 64 bytes of
`HKDF-SHA256(salt = root_key, ikm = dh_output)` expanded with
`KDF_RK_INFO`, split into the new root key and the chain key. -/
def kdf_rk (root_key dh_output : List SByte) :
    Except CryptoError (List SByte × List SByte) :=
  let output := hkdfBytes root_key dh_output KDF_RK_INFO 64
  .ok (output.take 32, output.drop 32)

/-- `kdf_ck` (`ratchet.rs` lines 502-521):
`(HMAC(ck, 0x01), HMAC(ck, 0x02))`. -/
def kdf_ck (chain_key : List SByte) :
    Except CryptoError (List SByte × List SByte) :=
  .ok (hmacBytes chain_key [SByte.b 1], hmacBytes chain_key [SByte.b 2])

/-- `encrypt_message` (`ratchet.rs` lines 524-548): ChaCha20-Poly1305
with the serialized header as AAD; the random nonce is explicit. -/
def encrypt_message (key plaintext : List SByte) (header : MessageHeader)
    (nonce : List SByte) : Except CryptoError (List SByte × List SByte) :=
  .ok (chachaEncrypt key nonce header.to_bytes plaintext, nonce)

/-- `decrypt_message` (`ratchet.rs` lines 551-575). -/
def decrypt_message (key ciphertext nonce : List SByte)
    (header : MessageHeader) : Except CryptoError (List SByte) :=
  if listLen nonce ≠ 12 then .error .DecryptionFailed
  else
    match chachaDecrypt key nonce header.to_bytes ciphertext with
    | some pt => .ok pt
    | none => .error .DecryptionFailed

/-- `RatchetSessionState` from `ratchet.rs` lines 179-210; the
`HashMap` of skipped message keys is an association list. -/
structure RatchetSessionState where
  dh_self : DhKeyPair
  dh_remote : Option (List SByte)
  root_key : List SByte
  chain_key_send : Option (List SByte)
  chain_key_recv : Option (List SByte)
  message_number_send : Nat
  message_number_recv : Nat
  previous_chain_length : Nat
  skipped_message_keys : List ((List SByte × Nat) × List SByte)
deriving DecidableEq

/-- `HashMap::remove`: the removed value (if any) and the remaining map. -/
def hmRemove (m : List ((List SByte × Nat) × List SByte))
    (k : List SByte × Nat) :
    Option (List SByte) × List ((List SByte × Nat) × List SByte) :=
  match m with
  | [] => (none, [])
  | e :: rest =>
      if e.1 = k then (some e.2, rest)
      else
        let r := hmRemove rest k
        (r.1, e :: r.2)

/-- `HashMap::insert`: replaces the value at an existing key, otherwise
adds the entry. -/
def hmInsert (m : List ((List SByte × Nat) × List SByte))
    (k : List SByte × Nat) (v : List SByte) :
    List ((List SByte × Nat) × List SByte) :=
  match m with
  | [] => [(k, v)]
  | e :: rest => if e.1 = k then (k, v) :: rest else e :: hmInsert rest k v

/-- `keys().next()` followed by `remove`: drops one (arbitrary) entry. -/
def hmEvict (m : List ((List SByte × Nat) × List SByte)) :
    List ((List SByte × Nat) × List SByte) :=
  match m with
  | [] => []
  | _ :: rest => rest

/-- The `while self.message_number_recv < until` loop of
`skip_message_keys` (`ratchet.rs` lines 443-461), with the iteration
count as fuel; the final `chain_key_recv` write happens at loop exit. -/
def skipLoop : Nat → RatchetSessionState → List SByte → List SByte →
    Except CryptoError Unit × RatchetSessionState
  | 0, s, _, chainKey => (.ok (), { s with chain_key_recv := some chainKey })
  | f + 1, s, dhKey, chainKey =>
    match kdf_ck chainKey with
    | .error e => (.error e, s)
    | .ok (messageKey, newChainKey) =>
      let sk1 := hmInsert s.skipped_message_keys
        (dhKey, s.message_number_recv) messageKey
      let sk2 := if MAX_SKIP < sk1.length then hmEvict sk1 else sk1
      skipLoop f
        { s with skipped_message_keys := sk2,
                 message_number_recv := s.message_number_recv + 1 }
        dhKey newChainKey

/-- `skip_message_keys` (`ratchet.rs` lines 428-462). -/
def skip_message_keys (s : RatchetSessionState) (untl : Nat) :
    Except CryptoError Unit × RatchetSessionState :=
  if s.message_number_recv + MAX_SKIP < untl then
    (.error .DecryptionFailed, s)
  else
    match s.chain_key_recv with
    | none => (.ok (), s)
    | some chainKey =>
      match s.dh_remote with
      | none => (.ok (), s)
      | some dhKey =>
          skipLoop (untl - s.message_number_recv) s dhKey chainKey

/-- `dh_ratchet` (`ratchet.rs` lines 402-425): the counter and remote-key
writes happen before the fallible DH calls, so an error leaves them
behind.  The fresh `DhKeyPair::generate` scalar is explicit. -/
def dh_ratchet (s : RatchetSessionState) (theirPublicKey : List SByte)
    (freshPriv : Nat) : Except CryptoError Unit × RatchetSessionState :=
  let s := { s with previous_chain_length := s.message_number_send,
                    message_number_send := 0, message_number_recv := 0,
                    dh_remote := some theirPublicKey }
  match s.dh_self.dh theirPublicKey with
  | .error e => (.error e, s)
  | .ok dhRecv =>
    match kdf_rk s.root_key dhRecv with
    | .error e => (.error e, s)
    | .ok (newRootKey, chainKeyRecv) =>
      let s := { s with root_key := newRootKey,
                        chain_key_recv := some chainKeyRecv }
      let s := { s with dh_self := DhKeyPair.generate freshPriv }
      match s.dh_self.dh theirPublicKey with
      | .error e => (.error e, s)
      | .ok dhSend =>
        match kdf_rk s.root_key dhSend with
        | .error e => (.error e, s)
        | .ok (newRootKey2, chainKeySend) =>
            (.ok (), { s with root_key := newRootKey2,
                              chain_key_send := some chainKeySend })

/-- The tail of `decrypt` after ratchet handling (`ratchet.rs` lines
387-398): skip in the current chain, pop a message key off the receiving
chain, bump the counter, then attempt AEAD decryption. -/
def decryptChain (s : RatchetSessionState) (m : RatchetMessage) :
    Except CryptoError (List SByte) × RatchetSessionState :=
  match skip_message_keys s m.header.message_number with
  | (.error e, s3) => (.error e, s3)
  | (.ok _, s3) =>
    match s3.chain_key_recv with
    | none => (.error .DecryptionFailed, s3)
    | some chainKey =>
      match kdf_ck chainKey with
      | .error e => (.error e, s3)
      | .ok (messageKey, newChainKey) =>
        let s4 := { s3 with chain_key_recv := some newChainKey,
                            message_number_recv := s3.message_number_recv + 1 }
        (decrypt_message messageKey m.ciphertext m.nonce m.header, s4)

/-- `RatchetSessionState::decrypt` (`ratchet.rs` lines 365-399). -/
def RatchetSessionState.decrypt (s : RatchetSessionState)
    (m : RatchetMessage) (freshPriv : Nat) :
    Except CryptoError (List SByte) × RatchetSessionState :=
  match hmRemove s.skipped_message_keys
      (m.header.dh_public_key, m.header.message_number) with
  | (some messageKey, rest) =>
      (decrypt_message messageKey m.ciphertext m.nonce m.header,
       { s with skipped_message_keys := rest })
  | (none, _) =>
    let needRatchet : Bool :=
      match s.dh_remote with
      | some remote => decide (remote ≠ m.header.dh_public_key)
      | none => true
    if needRatchet then
      match skip_message_keys s m.header.previous_chain_length with
      | (.error e, s1) => (.error e, s1)
      | (.ok _, s1) =>
        match dh_ratchet s1 m.header.dh_public_key freshPriv with
        | (.error e, s2) => (.error e, s2)
        | (.ok _, s2) => decryptChain s2 m
    else decryptChain s m

/-- **C10.** `MessageHeader::from_bytes` inverts `MessageHeader::to_bytes`
whenever the DH public key fits the one-byte length field and the two
counters fit `u32`. -/
theorem messageHeader_roundtrip (h : MessageHeader)
    (hpk : h.dh_public_key.length ≤ 255)
    (hprev : h.previous_chain_length < 2 ^ 32)
    (hnum : h.message_number < 2 ^ 32) :
    MessageHeader.from_bytes h.to_bytes = .ok h := by
  obtain ⟨pk, prev, num⟩ := h
  simp only at hpk hprev hnum
  have hmod : listLen pk % 256 = pk.length := by
    rw [listLen_eq]
    exact Nat.mod_eq_of_lt (by omega)
  have hlp : (bbytes (natToBeBytes 4 prev)).length = 4 := by
    simp [bbytes, natToBeBytes_length]
  have hln : (bbytes (natToBeBytes 4 num)).length = 4 := by
    simp [bbytes, natToBeBytes_length]
  rw [MessageHeader.to_bytes, MessageHeader.from_bytes]
  rw [if_neg (by simp [listLen_eq, List.length_append, hlp, hln])]
  simp only [hmod]
  rw [if_neg (by simp [listLen_eq, List.length_append, hlp, hln]; omega)]
  have hd1 : (pk ++ (bbytes (natToBeBytes 4 prev) ++ bbytes (natToBeBytes 4 num))).drop
      pk.length = bbytes (natToBeBytes 4 prev) ++ bbytes (natToBeBytes 4 num) :=
    List.drop_left pk _
  have hd2 : (pk ++ (bbytes (natToBeBytes 4 prev) ++ bbytes (natToBeBytes 4 num))).drop
      (pk.length + 4) = bbytes (natToBeBytes 4 num) := by
    rw [← List.drop_drop, hd1, List.drop_left' hlp]
  have ht1 : ((bbytes (natToBeBytes 4 prev) ++ bbytes (natToBeBytes 4 num)).take 4) =
      bbytes (natToBeBytes 4 prev) := List.take_left' hlp
  have ht0 : (pk ++ (bbytes (natToBeBytes 4 prev) ++ bbytes (natToBeBytes 4 num))).take
      pk.length = pk := List.take_left pk _
  have ht2 : ((bbytes (natToBeBytes 4 num)).take 4) = bbytes (natToBeBytes 4 num) :=
    List.take_of_length_le (by rw [hln])
  rw [hd1, hd2, ht1, ht0, ht2]
  rw [sbytesToNat_bbytes, sbytesToNat_bbytes,
    beBytesToNat_natToBeBytes 4 prev (by norm_num at hprev ⊢; omega),
    beBytesToNat_natToBeBytes 4 num (by norm_num at hnum ⊢; omega)]

theorem messageHeader_roundtrip_witness :
    (bbytes [2, 3]).length ≤ 255 ∧ (5 : Nat) < 2 ^ 32 ∧ (7 : Nat) < 2 ^ 32 ∧
    MessageHeader.from_bytes (MessageHeader.to_bytes
      { dh_public_key := bbytes [2, 3], previous_chain_length := 5,
        message_number := 7 }) = .ok
      { dh_public_key := bbytes [2, 3], previous_chain_length := 5,
        message_number := 7 } :=
  ⟨by decide, by decide, by decide,
    messageHeader_roundtrip
      { dh_public_key := bbytes [2, 3], previous_chain_length := 5,
        message_number := 7 } (by decide) (by decide) (by decide)⟩

/-- The receiving chain key of the session below. -/
def preChainKey : List SByte := List.replicate 32 (SByte.b 3)

/-- A ratchet session ready to receive on an established chain: the
remote DH key is known and a receiving chain key is present. -/
def preState : RatchetSessionState :=
  { dh_self := DhKeyPair.generate 5,
    dh_remote := some (serializePoint 9),
    root_key := List.replicate 32 (SByte.b 0),
    chain_key_send := none,
    chain_key_recv := some preChainKey,
    message_number_send := 0,
    message_number_recv := 0,
    previous_chain_length := 0,
    skipped_message_keys := [] }

/-- A garbage message on the current chain: the header matches the
session's remote DH key and expected message number, but the ciphertext
is 17 arbitrary bytes that fail AEAD authentication. -/
def garbageMessage : RatchetMessage :=
  { header := { dh_public_key := serializePoint 9,
                previous_chain_length := 0, message_number := 0 },
    ciphertext := List.replicate 17 (SByte.b 7),
    nonce := List.replicate 12 (SByte.b 0) }

/-- **C2 (refuted).** `decrypt` mutates the session state before the
fallible AEAD step: on the garbage message it returns
`DecryptionFailed`, yet the state it leaves behind has the receiving
chain advanced (`message_number_recv` bumped to 1 and `chain_key_recv`
stepped to `HMAC(ck, 0x02)`), so it differs from the state before the
call. -/
theorem ratchet_decrypt_mutates_state_on_error :
    (preState.decrypt garbageMessage 11).1 =
      .error CryptoError.DecryptionFailed ∧
    (preState.decrypt garbageMessage 11).2.message_number_recv = 1 ∧
    (preState.decrypt garbageMessage 11).2.chain_key_recv =
      some (hmacBytes preChainKey [SByte.b 2]) ∧
    preState.message_number_recv = 0 ∧
    preState.chain_key_recv = some preChainKey ∧
    (preState.decrypt garbageMessage 11).2 ≠ preState := by
  refine ⟨rfl, rfl, rfl, rfl, rfl, by decide⟩

/-! ## `multisig.rs`: Shamir threshold reconstruction

Scalars live in the secp256k1 scalar field and are modelled by their
numeric value; the 32-byte transport between `secret_bytes()` and
`SecretKey::from_slice` is the identity on valid scalars.  Every
`map_err` at the call sites of the tweak operations produces
`InvalidKey`, so the model returns that error directly. -/

/-- `KeyShare` from `multisig.rs` lines 24-37. -/
structure KeyShare where
  index : Nat
  share_secret : List SByte
  share_public_key : List SByte
  group_id : List SByte
  total_shares : Nat
  threshold : Nat
deriving DecidableEq

/-- `SecretKey::from_slice` on the 32-byte big-endian encoding of `k`. -/
def skFromNat (k : Nat) : Except CryptoError Nat :=
  if scalarValid k then .ok k else .error .InvalidKey

/-- `SecretKey::from_slice` on a 32-byte share value. -/
def skFromBytes (b : List SByte) : Except CryptoError Nat :=
  if b.length ≠ 32 then .error .InvalidKey
  else
    match sbytesToNat b with
    | some v => skFromNat v
    | none => .error .InvalidKey

/-- `SecretKey::mul_tweak`: modular product, invalid (zero) rejected. -/
def mulTweak (a b : Nat) : Except CryptoError Nat :=
  let r := a * b % nSecp
  if r = 0 then .error .InvalidKey else .ok r

/-- `SecretKey::add_tweak`: modular sum, invalid (zero) rejected. -/
def addTweak (a b : Nat) : Except CryptoError Nat :=
  let r := (a + b) % nSecp
  if r = 0 then .error .InvalidKey else .ok r

/-- `SecretKey::negate` on a valid scalar. -/
def negateSk (k : Nat) : Nat := nSecp - k

/-- The `n_minus_2` byte array of `modular_inverse_scalar`
(`multisig.rs` lines 415-419). -/
def n_minus_2 : List Nat :=
  [0xFF, 0xFF, 0xFF, 0xFF, 0xFF, 0xFF, 0xFF, 0xFF, 0xFF, 0xFF, 0xFF,
   0xFF, 0xFF, 0xFF, 0xFF, 0xFE, 0xBA, 0xAE, 0xDC, 0xE6, 0xAF, 0x48,
   0xA0, 0x3B, 0xBF, 0xD2, 0x5E, 0x8C, 0xD0, 0x36, 0x41, 0x3F]

/-- One bit of the square-and-multiply loop of `modular_inverse_scalar`:
square, then multiply by the base if the bit is set. -/
def invBitStep (base result bit : Nat) : Except CryptoError Nat :=
  match mulTweak result result with
  | .error e => .error e
  | .ok r => if bit = 1 then mulTweak r base else .ok r

/-- The byte loop of `modular_inverse_scalar`, most significant bit
first within each byte. -/
def invByteLoop (base : Nat) : List Nat → Nat → Except CryptoError Nat
  | [], result => .ok result
  | byte :: rest, result =>
    match invBitStep base result (byte / 128 % 2) with
    | .error e => .error e
    | .ok r0 =>
    match invBitStep base r0 (byte / 64 % 2) with
    | .error e => .error e
    | .ok r1 =>
    match invBitStep base r1 (byte / 32 % 2) with
    | .error e => .error e
    | .ok r2 =>
    match invBitStep base r2 (byte / 16 % 2) with
    | .error e => .error e
    | .ok r3 =>
    match invBitStep base r3 (byte / 8 % 2) with
    | .error e => .error e
    | .ok r4 =>
    match invBitStep base r4 (byte / 4 % 2) with
    | .error e => .error e
    | .ok r5 =>
    match invBitStep base r5 (byte / 2 % 2) with
    | .error e => .error e
    | .ok r6 =>
    match invBitStep base r6 (byte % 2) with
    | .error e => .error e
    | .ok r7 => invByteLoop base rest r7

/-- `modular_inverse_scalar` (`multisig.rs` lines 412-454):
`scalar^(n-2) mod n` by square-and-multiply. -/
def modular_inverse_scalar (scalar : Nat) : Except CryptoError Nat :=
  invByteLoop scalar n_minus_2 1

/-- The `for (j, share_j)` loop of `compute_lagrange_coefficient`
(`multisig.rs` lines 336-367), accumulating numerator and denominator. -/
def lagrangeLoop (i x_i : Nat) :
    List (Nat × KeyShare) → Nat → Nat → Except CryptoError (Nat × Nat)
  | [], numr, denom => .ok (numr, denom)
  | (j, share_j) :: rest, numr, denom =>
    if i = j then lagrangeLoop i x_i rest numr denom
    else
      match skFromNat share_j.index with
      | .error e => .error e
      | .ok x_j =>
        match mulTweak numr (negateSk x_j) with
        | .error e => .error e
        | .ok numr2 =>
          match skFromNat x_i with
          | .error e => .error e
          | .ok x_i_key =>
            match addTweak x_i_key (negateSk x_j) with
            | .error e => .error e
            | .ok diff =>
              match mulTweak denom diff with
              | .error e => .error e
              | .ok denom2 => lagrangeLoop i x_i rest numr2 denom2

/-- `compute_lagrange_coefficient` (`multisig.rs` lines 324-407):
`L_i(0) = prod_(j != i) (0 - x_j) / (x_i - x_j)` in the scalar field. -/
def compute_lagrange_coefficient (i : Nat) (shares : List KeyShare) :
    Except CryptoError Nat :=
  match shares[i]? with
  | none => .error .InvalidKey
  | some share_i =>
    match lagrangeLoop i share_i.index shares.enum 1 1 with
    | .error e => .error e
    | .ok (numr, denom) =>
      match modular_inverse_scalar denom with
      | .error e => .error e
      | .ok dinv => mulTweak numr dinv

/-- The `for (i, share_i)` term loop of `reconstruct_secret`
(`multisig.rs` lines 282-297). -/
def termsLoop (active : List KeyShare) :
    List (Nat × KeyShare) → Except CryptoError (List Nat)
  | [] => .ok []
  | (i, share_i) :: rest =>
    match compute_lagrange_coefficient i active with
    | .error e => .error e
    | .ok lag =>
      match skFromBytes share_i.share_secret with
      | .error e => .error e
      | .ok shareKey =>
        match skFromNat lag with
        | .error e => .error e
        | .ok lagKey =>
          match mulTweak shareKey lagKey with
          | .error e => .error e
          | .ok term =>
            match termsLoop active rest with
            | .error e => .error e
            | .ok terms => .ok (term :: terms)

/-- The term summation loop of `reconstruct_secret`
(`multisig.rs` lines 304-311). -/
def sumLoop (acc : Nat) : List Nat → Except CryptoError Nat
  | [] => .ok acc
  | t :: rest =>
    match addTweak acc t with
    | .error e => .error e
    | .ok a => sumLoop a rest

/-- Insertion into a sorted list (`indices.sort()`). -/
def insertSorted (x : Nat) : List Nat → List Nat
  | [] => [x]
  | y :: ys => if x ≤ y then x :: y :: ys else y :: insertSorted x ys

/-- `Vec::sort` on the index list. -/
def sortNat (l : List Nat) : List Nat := l.foldr insertSorted []

/-- `Vec::dedup`: collapses adjacent equal elements. -/
def dedupAdj : List Nat → List Nat
  | [] => []
  | [x] => [x]
  | x :: y :: rest =>
      if x = y then dedupAdj (y :: rest) else x :: dedupAdj (y :: rest)

/-- `reconstruct_secret` (`multisig.rs` lines 249-321).  The Rust code
indexes `active_shares[0]` without a bounds check; with `threshold = 0`
that is a panic, modelled as `InvalidKey` (unreachable for shares made
by `generate_threshold_key`, which requires `threshold >= 2`). -/
def reconstruct_secret (shares : List KeyShare) :
    Except CryptoError (List SByte) :=
  match shares with
  | [] => .error .InvalidKey
  | s0 :: _ =>
    if shares.length < s0.threshold then .error .InvalidKey
    else
      match shares.take s0.threshold with
      | [] => .error .InvalidKey
      | a0 :: arest =>
        if ¬ (a0 :: arest).all (fun s => s.group_id = a0.group_id) then
          .error .InvalidKey
        else
          if (dedupAdj (sortNat ((a0 :: arest).map (fun s => s.index)))).length ≠
              (a0 :: arest).length then .error .InvalidKey
          else
            match termsLoop (a0 :: arest) (a0 :: arest).enum with
            | .error e => .error e
            | .ok terms =>
              match terms with
              | [] => .error .InvalidKey
              | t0 :: trest =>
                match sumLoop t0 trest with
                | .error e => .error e
                | .ok sum => .ok (bbytes (natToBeBytes 32 sum))

theorem insertSorted_perm (x : Nat) (l : List Nat) :
    List.Perm (insertSorted x l) (x :: l) := by
  induction l with
  | nil => simp [insertSorted]
  | cons y ys ih =>
    rw [insertSorted]
    split
    · exact List.Perm.refl _
    · exact List.Perm.trans (List.Perm.cons y ih) (List.Perm.swap x y ys)

theorem sortNat_perm (l : List Nat) : List.Perm (sortNat l) l := by
  induction l with
  | nil => simp [sortNat]
  | cons x xs ih =>
    exact List.Perm.trans (insertSorted_perm x (sortNat xs))
      (List.Perm.cons x ih)

theorem insertSorted_sorted (x : Nat) (l : List Nat)
    (h : l.Sorted (· ≤ ·)) : (insertSorted x l).Sorted (· ≤ ·) := by
  induction l with
  | nil => simp [insertSorted]
  | cons y ys ih =>
    rw [List.sorted_cons] at h
    rw [insertSorted]
    split
    · rename_i hxy
      rw [List.sorted_cons]
      refine ⟨?_, ?_⟩
      · intro b hb
        rcases List.mem_cons.mp hb with rfl | hb2
        · exact hxy
        · exact le_trans hxy (h.1 b hb2)
      · rw [List.sorted_cons]
        exact h
    · rename_i hxy
      rw [List.sorted_cons]
      refine ⟨?_, ih h.2⟩
      intro b hb
      have hb' := (insertSorted_perm x ys).mem_iff.mp hb
      rcases List.mem_cons.mp hb' with rfl | hb2
      · omega
      · exact h.1 b hb2

theorem sortNat_sorted (l : List Nat) : (sortNat l).Sorted (· ≤ ·) := by
  induction l with
  | nil => simp [sortNat, List.Sorted]
  | cons x xs ih => exact insertSorted_sorted x (sortNat xs) ih

theorem dedupAdj_length_le (l : List Nat) :
    (dedupAdj l).length ≤ l.length := by
  induction l with
  | nil => simp [dedupAdj]
  | cons x xs ih =>
    cases xs with
    | nil => simp [dedupAdj]
    | cons y rest =>
      rw [dedupAdj]
      split
      · exact le_trans ih (by simp)
      · simp only [List.length_cons] at *
        omega

theorem dedupAdj_lt_of_sorted_dup (l : List Nat)
    (hs : l.Sorted (· ≤ ·)) (hd : ¬ l.Nodup) :
    (dedupAdj l).length < l.length := by
  induction l with
  | nil => simp at hd
  | cons x xs ih =>
    cases xs with
    | nil => simp at hd
    | cons y rest =>
      rw [List.sorted_cons] at hs
      rw [dedupAdj]
      split
      · have := dedupAdj_length_le (y :: rest)
        simp only [List.length_cons] at *
        omega
      · rename_i hxy
        have hnd : ¬ (y :: rest).Nodup := by
          intro hnd2
          apply hd
          rw [List.nodup_cons]
          refine ⟨?_, hnd2⟩
          intro hmem
          rcases List.mem_cons.mp hmem with rfl | hmem2
          · exact hxy rfl
          · have hyx := (List.sorted_cons.mp hs.2).1 x hmem2
            have hxy2 := hs.1 y (by simp)
            exact hxy (le_antisymm hxy2 hyx)
        have := ih hs.2 hnd
        simp only [List.length_cons] at *
        omega

theorem dedup_sort_length_ne (l : List Nat) (hd : ¬ l.Nodup) :
    (dedupAdj (sortNat l)).length ≠ l.length := by
  have hp := sortNat_perm l
  have hlt := dedupAdj_lt_of_sorted_dup (sortNat l) (sortNat_sorted l)
    (fun h => hd (hp.nodup_iff.mp h))
  rw [hp.length_eq] at hlt
  omega

theorem map_index_not_nodup (l : List KeyShare) (p q : Nat)
    (sp sq : KeyShare) (hpq : p < q) (hp : l[p]? = some sp)
    (hq : l[q]? = some sq) (hidx : sp.index = sq.index) :
    ¬ (l.map (fun s => s.index)).Nodup := by
  obtain ⟨hplt, hpe⟩ := List.getElem?_eq_some_iff.mp hp
  obtain ⟨hqlt, hqe⟩ := List.getElem?_eq_some_iff.mp hq
  intro hnd
  have hinj := List.nodup_iff_injective_getElem.mp hnd
  have hplt' : p < (l.map (fun s => s.index)).length := by simpa using hplt
  have hqlt' : q < (l.map (fun s => s.index)).length := by simpa using hqlt
  have hval : (fun i : Fin (l.map (fun s => s.index)).length =>
      (l.map (fun s => s.index)).get i) ⟨p, hplt'⟩ =
      (fun i : Fin (l.map (fun s => s.index)).length =>
      (l.map (fun s => s.index)).get i) ⟨q, hqlt'⟩ := by
    simp only [List.get_eq_getElem, List.getElem_map]
    rw [hpe, hqe, hidx]
  have hfin := List.nodup_iff_injective_get.mp hnd hval
  have hpq2 : p = q := by simpa using congrArg Fin.val hfin
  omega

set_option maxHeartbeats 1000000 in
/-- **C7 (amended).** If the *first `threshold`* shares passed to
`reconstruct_secret` contain two shares with the same index, or two
shares with different `group_id` values, then reconstruction fails with
`InvalidKey`.  (The claim as stated quantifies over the whole list; the
counterexample shows shares beyond the first `threshold` are never
validated.) -/
theorem reconstruct_secret_rejects_dup_or_mixed
    (shares : List KeyShare) (s0 : KeyShare) (h0 : shares.head? = some s0)
    (hbad :
      (∃ (p q : Nat) (sp sq : KeyShare), p < q ∧
        (shares.take s0.threshold)[p]? = some sp ∧
        (shares.take s0.threshold)[q]? = some sq ∧
        sp.index = sq.index) ∨
      (∃ (p q : Nat) (sp sq : KeyShare),
        (shares.take s0.threshold)[p]? = some sp ∧
        (shares.take s0.threshold)[q]? = some sq ∧
        sp.group_id ≠ sq.group_id)) :
    reconstruct_secret shares = .error CryptoError.InvalidKey := by
  cases shares with
  | nil => simp at h0
  | cons s0' rest =>
    rw [List.head?_cons, Option.some.injEq] at h0
    subst h0
    simp only [reconstruct_secret]
    split
    · rfl
    · split
      · rfl
      · rename_i hlen a0 arest htake
        rw [htake] at hbad
        split
        · rfl
        · rename_i hall
          have hallT : ((a0 :: arest).all
              (fun s => decide (s.group_id = a0.group_id))) = true := by
            simpa using not_not.mp hall
          have hgid : ∀ s ∈ a0 :: arest, s.group_id = a0.group_id := by
            intro s hs
            exact of_decide_eq_true (List.all_eq_true.mp hallT s hs)
          rcases hbad with ⟨p, q, sp, sq, hpq, hp, hq, hidx⟩ |
            ⟨p, q, sp, sq, hp, hq, hgid2⟩
          · have hnd := map_index_not_nodup (a0 :: arest) p q sp sq hpq hp hq hidx
            have hne := dedup_sort_length_ne _ hnd
            rw [List.length_map] at hne
            rw [if_pos hne]
          · obtain ⟨hplt, hpe⟩ := List.getElem?_eq_some_iff.mp hp
            obtain ⟨hqlt, hqe⟩ := List.getElem?_eq_some_iff.mp hq
            have hspm : sp ∈ a0 :: arest := hpe ▸ List.getElem_mem hplt
            have hsqm : sq ∈ a0 :: arest := hqe ▸ List.getElem_mem hqlt
            exact absurd ((hgid sp hspm).trans (hgid sq hsqm).symm) hgid2

/-- The share of index 1 holding scalar 5 (threshold 2, group `g1`). -/
def shareIdx1 : KeyShare :=
  { index := 1, share_secret := bbytes (natToBeBytes 32 5),
    share_public_key := [], group_id := bbytes (strB "g1"),
    total_shares := 3, threshold := 2 }

/-- The share of index 2 holding scalar 7 (threshold 2, group `g1`). -/
def shareIdx2 : KeyShare :=
  { index := 2, share_secret := bbytes (natToBeBytes 32 7),
    share_public_key := [], group_id := bbytes (strB "g1"),
    total_shares := 3, threshold := 2 }

/-- A second share of index 1 (duplicate index, same group). -/
def shareIdx1Dup : KeyShare :=
  { index := 1, share_secret := bbytes (natToBeBytes 32 9),
    share_public_key := [], group_id := bbytes (strB "g1"),
    total_shares := 3, threshold := 2 }

/-- A share of a different group `g2`. -/
def shareOtherGroup : KeyShare :=
  { index := 3, share_secret := bbytes (natToBeBytes 32 9),
    share_public_key := [], group_id := bbytes (strB "g2"),
    total_shares := 3, threshold := 2 }

theorem reconstruct_secret_rejects_dup_or_mixed_witness :
    ([shareIdx1, shareIdx1Dup].head? = some shareIdx1) ∧
    shareIdx1.index = shareIdx1Dup.index ∧
    reconstruct_secret [shareIdx1, shareIdx1Dup] =
      .error CryptoError.InvalidKey :=
  ⟨rfl, rfl,
    reconstruct_secret_rejects_dup_or_mixed [shareIdx1, shareIdx1Dup]
      shareIdx1 rfl
      (Or.inl ⟨0, 1, shareIdx1, shareIdx1Dup, by decide, rfl, rfl, rfl⟩)⟩

set_option maxRecDepth 4000 in
/-- **C7 (counterexample).** With threshold 2, a third share carrying a
duplicate index — or a foreign `group_id` — sits beyond
`&shares[..threshold]` and is never validated: reconstruction succeeds
(Lagrange on shares (1,5) and (2,7) gives 2*5 - 7 = 3) instead of
failing as the claim requires. -/
theorem reconstruct_secret_accepts_trailing_bad_shares :
    shareIdx1.index = shareIdx1Dup.index ∧
    shareOtherGroup.group_id ≠ shareIdx1.group_id ∧
    reconstruct_secret [shareIdx1, shareIdx2, shareIdx1Dup] =
      .ok (bbytes (natToBeBytes 32 3)) ∧
    reconstruct_secret [shareIdx1, shareIdx2, shareOtherGroup] =
      .ok (bbytes (natToBeBytes 32 3)) :=
  ⟨rfl, by decide, rfl, rfl⟩

/-! ## `duress.rs`: duress password hashing and checking -/

/-- `DURESS_KEY_SALT` from `duress.rs` line 48. -/
def DURESS_KEY_SALT : List SByte := bbytes (strB "BuildItNetwork-Duress-v1")

/-- `DURESS_KEY_INFO` from `duress.rs` line 49. -/
def DURESS_KEY_INFO : List SByte := bbytes (strB "duress-password-key")

/-- `DuressCheckResult` from `duress.rs` lines 66-71. -/
structure DuressCheckResult where
  is_duress : Bool
  password_valid : Bool
deriving DecidableEq

/-- `hash_duress_password` (`duress.rs` lines 99-135): Argon2id at the
crate's fixed parameters, then HKDF-SHA256 with the duress salt and info
for domain separation.  Salts shorter than 16 bytes are rejected. -/
def hash_duress_password (password salt : List SByte) :
    Except CryptoError (List SByte) :=
  if salt.length < 16 then .error .KeyDerivationFailed
  else
    .ok (hkdfBytes DURESS_KEY_SALT (argonBytes password salt)
      DURESS_KEY_INFO 32)

/-- `check_duress_password` (`duress.rs` lines 146-167): hash the entered
password, compare against the stored duress hash, hash again and compare
against the stored normal hash; `password_valid = is_duress || is_normal`
(`ct_eq` is equality). -/
def check_duress_password
    (entered_password salt stored_duress_hash stored_normal_hash :
      List SByte) : Except CryptoError DuressCheckResult :=
  match hash_duress_password entered_password salt with
  | .error e => .error e
  | .ok entered_hash =>
    let isDuress : Bool := decide (entered_hash = stored_duress_hash)
    match hash_duress_password entered_password salt with
    | .error e => .error e
    | .ok entered_normal_hash =>
      let isNormal : Bool := decide (entered_normal_hash = stored_normal_hash)
      .ok { is_duress := isDuress, password_valid := isDuress || isNormal }

theorem hash_duress_password_eval (P salt : List SByte)
    (h : 16 ≤ salt.length) :
    hash_duress_password P salt =
      .ok (hkdfBytes DURESS_KEY_SALT (argonBytes P salt)
        DURESS_KEY_INFO 32) := by
  rw [hash_duress_password, if_neg (by omega)]

theorem duress_hash_inj (P1 P2 salt : List SByte) (h : P1 ≠ P2) :
    hkdfBytes DURESS_KEY_SALT (argonBytes P1 salt) DURESS_KEY_INFO 32 ≠
      hkdfBytes DURESS_KEY_SALT (argonBytes P2 salt) DURESS_KEY_INFO 32 := by
  intro he
  apply h
  simpa [hkdfBytes, argonBytes] using he

/-- **C8.** For every salt of at least 16 bytes, distinct normal and
duress passwords with stored hashes `Hn` and `Hd`, and a third password
distinct from both: the normal password checks as
`{is_duress := false, password_valid := true}`, the duress password as
`{is_duress := true, password_valid := true}`, and the other password as
`{is_duress := false, password_valid := false}` (hash distinctness of
distinct passwords is the ideal-primitive collision-freeness of the
Argon2id/HKDF chain). -/
theorem check_duress_password_cases
    (Pn Pd Pe salt : List SByte) (hsalt : 16 ≤ salt.length)
    (hnd : Pn ≠ Pd) (hen : Pe ≠ Pn) (hed : Pe ≠ Pd)
    (Hn Hd : List SByte)
    (hHn : hash_duress_password Pn salt = .ok Hn)
    (hHd : hash_duress_password Pd salt = .ok Hd) :
    check_duress_password Pn salt Hd Hn =
      .ok { is_duress := false, password_valid := true } ∧
    check_duress_password Pd salt Hd Hn =
      .ok { is_duress := true, password_valid := true } ∧
    check_duress_password Pe salt Hd Hn =
      .ok { is_duress := false, password_valid := false } := by
  rw [hash_duress_password_eval Pn salt hsalt] at hHn
  rw [hash_duress_password_eval Pd salt hsalt] at hHd
  injection hHn with hHn
  injection hHd with hHd
  subst hHn
  subst hHd
  have hnd' := duress_hash_inj Pn Pd salt hnd
  have hen' := duress_hash_inj Pe Pn salt hen
  have hed' := duress_hash_inj Pe Pd salt hed
  refine ⟨?_, ?_, ?_⟩
  · rw [check_duress_password, hash_duress_password_eval Pn salt hsalt]
    simp [hnd']
  · rw [check_duress_password, hash_duress_password_eval Pd salt hsalt]
    simp [Ne.symm hnd]
  · rw [check_duress_password, hash_duress_password_eval Pe salt hsalt]
    simp [hen', hed']

theorem check_duress_password_cases_witness :
    16 ≤ (List.replicate 16 (SByte.b 0)).length ∧
    bbytes (strB "normal123") ≠ bbytes (strB "help") ∧
    bbytes (strB "wrong") ≠ bbytes (strB "normal123") ∧
    bbytes (strB "wrong") ≠ bbytes (strB "help") ∧
    check_duress_password (bbytes (strB "normal123"))
      (List.replicate 16 (SByte.b 0))
      (hkdfBytes DURESS_KEY_SALT
        (argonBytes (bbytes (strB "help")) (List.replicate 16 (SByte.b 0)))
        DURESS_KEY_INFO 32)
      (hkdfBytes DURESS_KEY_SALT
        (argonBytes (bbytes (strB "normal123"))
          (List.replicate 16 (SByte.b 0)))
        DURESS_KEY_INFO 32) =
      .ok { is_duress := false, password_valid := true } ∧
    check_duress_password (bbytes (strB "help"))
      (List.replicate 16 (SByte.b 0))
      (hkdfBytes DURESS_KEY_SALT
        (argonBytes (bbytes (strB "help")) (List.replicate 16 (SByte.b 0)))
        DURESS_KEY_INFO 32)
      (hkdfBytes DURESS_KEY_SALT
        (argonBytes (bbytes (strB "normal123"))
          (List.replicate 16 (SByte.b 0)))
        DURESS_KEY_INFO 32) =
      .ok { is_duress := true, password_valid := true } ∧
    check_duress_password (bbytes (strB "wrong"))
      (List.replicate 16 (SByte.b 0))
      (hkdfBytes DURESS_KEY_SALT
        (argonBytes (bbytes (strB "help")) (List.replicate 16 (SByte.b 0)))
        DURESS_KEY_INFO 32)
      (hkdfBytes DURESS_KEY_SALT
        (argonBytes (bbytes (strB "normal123"))
          (List.replicate 16 (SByte.b 0)))
        DURESS_KEY_INFO 32) =
      .ok { is_duress := false, password_valid := false } :=
  ⟨by decide, by decide, by decide, by decide,
    (check_duress_password_cases (bbytes (strB "normal123"))
      (bbytes (strB "help")) (bbytes (strB "wrong"))
      (List.replicate 16 (SByte.b 0)) (by decide) (by decide) (by decide)
      (by decide) _ _ rfl rfl).1,
    (check_duress_password_cases (bbytes (strB "normal123"))
      (bbytes (strB "help")) (bbytes (strB "wrong"))
      (List.replicate 16 (SByte.b 0)) (by decide) (by decide) (by decide)
      (by decide) _ _ rfl rfl).2.1,
    (check_duress_password_cases (bbytes (strB "normal123"))
      (bbytes (strB "help")) (bbytes (strB "wrong"))
      (List.replicate 16 (SByte.b 0)) (by decide) (by decide) (by decide)
      (by decide) _ _ rfl rfl).2.2⟩

/-! ## `versioning.rs`: schema versioning

This module works on `serde_json` values, modelled by an own `Json`
type over Lean `String`s; the `HashMap` of preserved fields is the
association list in `unknown_fields` order. -/

/-- `serde_json::Value`. -/
inductive Json where
  | str : String → Json
  | num : Int → Json
  | jbool : Bool → Json
  | null : Json
  | arr : List Json → Json
  | obj : List (String × Json) → Json

/-- `DEFAULT_VERSION` from `versioning.rs` line 18. -/
def DEFAULT_VERSION : String := "1.0.0"

/-- `SchemaVersion` from `versioning.rs` lines 22-26. -/
structure SchemaVersion where
  major : Nat
  minor : Nat
  patch : Nat
deriving DecidableEq

/-- `str::split('.')`: split a character list at every dot. -/
def splitDotsGo (acc : List Char) : List Char → List (List Char)
  | [] => [acc.reverse]
  | c :: rest =>
      if c = '.' then acc.reverse :: splitDotsGo [] rest
      else splitDotsGo (c :: acc) rest

/-- `str::parse::<u32>()`: optional leading `+`, at least one digit, all
digits, value below `2^32`. -/
def parseU32 (cs : List Char) : Option Nat :=
  let cs2 := match cs with
    | '+' :: rest => rest
    | _ => cs
  if cs2 = [] then none
  else if cs2.all (fun c => c.isDigit) then
    let v := cs2.foldl (fun acc c => acc * 10 + (c.toNat - 48)) 0
    if v < 4294967296 then some v else none
  else none

/-- `SchemaVersion::parse` (`versioning.rs` lines 33-45): exactly three
dot-separated `u32` components. -/
def SchemaVersion.parse (version : String) : Except CryptoError SchemaVersion :=
  match splitDotsGo [] version.toList with
  | [a, b, c] =>
    match parseU32 a, parseU32 b, parseU32 c with
    | some major, some minor, some patch => .ok ⟨major, minor, patch⟩
    | _, _, _ => .error .InvalidVersion
  | _ => .error .InvalidVersion

/-- `VersionedParseResult` from `versioning.rs` lines 88-103. -/
structure VersionedParseResult where
  can_parse : Bool
  is_partial : Bool
  unknown_fields : List String
  preserved_unknown_fields : List (String × Json)
  content_readable : Bool
  inferred_version : Option String
  update_required : Bool

/-- `known_fields_for_module` (`versioning.rs` lines 106-139). -/
def known_fields_for_module (module : String) : List String :=
  if module = "messaging" then
    ["_v", "content", "replyTo", "attachments", "linkPreviews", "mentions",
     "groupId", "threadId", "emoji", "targetId", "conversationId",
     "lastRead", "readAt", "typing"]
  else if module = "events" then
    ["_v", "id", "title", "startAt", "endAt", "description", "location",
     "createdBy", "createdAt", "updatedAt", "timezone", "allDay",
     "recurrence", "rsvpDeadline", "maxAttendees", "visibility",
     "attachments", "customFields", "linkPreviews", "virtualUrl"]
  else if module = "documents" then
    ["_v", "id", "title", "content", "type", "createdBy", "createdAt",
     "updatedAt", "updatedBy", "version", "tags", "summary",
     "parentId", "groupId", "editors", "editPermission", "visibility",
     "attachments", "linkPreviews"]
  else ["_v"]

/-- `Map::get` on a JSON object. -/
def jGet (obj : List (String × Json)) (k : String) : Option Json :=
  match obj with
  | [] => none
  | e :: rest => if e.1 = k then some e.2 else jGet rest k

/-- Lexicographic order on character lists (`Vec<String>::sort` compares
strings bytewise; codepoint order equals UTF-8 byte order). -/
def charListLe : List Char → List Char → Bool
  | [], _ => true
  | _ :: _, [] => false
  | a :: as, b :: bs =>
      if a.toNat < b.toNat then true
      else if b.toNat < a.toNat then false
      else charListLe as bs

/-- Insertion into a sorted string list (`Vec::sort` on field names). -/
def insertSortedStr (x : String) : List String → List String
  | [] => [x]
  | y :: ys =>
      if charListLe x.toList y.toList then x :: y :: ys
      else y :: insertSortedStr x ys

/-- `Vec::sort` for strings. -/
def sortStr (l : List String) : List String := l.foldr insertSortedStr []

/-- The all-false `VersionedParseResult` returned on the three early
exits of `parse_versioned_content`. -/
def failResult : VersionedParseResult :=
  { can_parse := false, is_partial := false, unknown_fields := [],
    preserved_unknown_fields := [], content_readable := false,
    inferred_version := none, update_required := false }

/-- `parse_versioned_content` (`versioning.rs` lines 150-248). -/
def parse_versioned_content (json : Json) (module readerVersionStr : String) :
    VersionedParseResult :=
  match SchemaVersion.parse readerVersionStr with
  | .error _ => failResult
  | .ok reader_version =>
    match json with
    | .obj obj =>
      let version_string :=
        match jGet obj "_v" with
        | some (.str s) => s
        | some _ => DEFAULT_VERSION
        | none => DEFAULT_VERSION
      match SchemaVersion.parse version_string with
      | .error _ => failResult
      | .ok content_version =>
        let inferred_version :=
          if (jGet obj "_v").isNone then some DEFAULT_VERSION else none
        let known := known_fields_for_module module
        let unknown_fields :=
          sortStr ((obj.map (fun e => e.1)).filter
            (fun k => ¬ known.contains k))
        let preserved := unknown_fields.filterMap
          (fun k => (jGet obj k).map (fun v => (k, v)))
        let is_partial : Bool :=
          (¬ unknown_fields.isEmpty) ||
            decide (reader_version.major < content_version.major)
        let canUpd : Bool × Bool :=
          if reader_version.major < content_version.major then
            (decide (module = "messaging"), true)
          else (true, false)
        let content_readable : Bool :=
          decide (module = "messaging") && (jGet obj "content").isSome
        { can_parse := canUpd.1, is_partial := is_partial,
          unknown_fields := unknown_fields,
          preserved_unknown_fields := preserved,
          content_readable := content_readable,
          inferred_version := inferred_version,
          update_required := canUpd.2 }
    | _ => failResult

/-- The input object of the claim:
`\x7b"_v":"1.1.0","content":"hi","futureFeature":"x","extra":\x7b"a":1\x7d\x7d`. -/
def versionedInput : Json :=
  .obj [("_v", .str "1.1.0"), ("content", .str "hi"),
        ("futureFeature", .str "x"), ("extra", .obj [("a", .num 1)])]

/-- **C9.** Parsing the claim's object as module `messaging` with reader
version `1.0.0` gives `can_parse`, `is_partial`, the sorted unknown
fields `["extra", "futureFeature"]` preserved with their values,
`content_readable`, and no update requirement. -/
theorem parse_versioned_content_concrete :
    parse_versioned_content versionedInput "messaging" "1.0.0" =
      { can_parse := true, is_partial := true,
        unknown_fields := ["extra", "futureFeature"],
        preserved_unknown_fields :=
          [("extra", Json.obj [("a", Json.num 1)]),
           ("futureFeature", Json.str "x")],
        content_readable := true, inferred_version := none,
        update_required := false } := rfl
